import Mathlib

/-!
Verification of the subtitle timing / SRT core of the bilingual-subtitle app.

The embedding models the TypeScript source shallowly:
* JS strings are `List Char` (`JSStr`);
* JS numbers are `Option ℚ` (`JsNum`), `none` standing for `NaN`;
  arithmetic on them uses real-number semantics (IEEE rounding is not
  modelled; every claim treated here is about exact arithmetic);
* fallible parsing returns `none` exactly where the JS code produces `NaN`.
-/

/-- A JavaScript string, modelled as its list of characters. -/
abbrev JSStr := List Char

/-- Embed a Lean string literal into the model. -/
def str (s : String) : JSStr := s.data

/-- A JavaScript number: `none` models `NaN`, `some q` a (finite) value.
Non-finite values other than `NaN` never arise in the modelled code. -/
abbrev JsNum := Option ℚ

/-- JS `+` on numbers: `NaN` absorbs. -/
def jsAdd : JsNum → JsNum → JsNum
  | some a, some b => some (a + b)
  | _, _ => none

/-- JS `*` on numbers: `NaN` absorbs. -/
def jsMul : JsNum → JsNum → JsNum
  | some a, some b => some (a * b)
  | _, _ => none

/-- JS `/` on numbers: `NaN` absorbs.  Division by zero (which would give
`±Infinity` in JS) is mapped to `none`; the modelled code only ever divides
by the literal `1000`. -/
def jsDiv : JsNum → JsNum → JsNum
  | some a, some b => if b = 0 then none else some (a / b)
  | _, _ => none

/-- JS `<=` on numbers: any comparison involving `NaN` is `false`. -/
def jsLe : JsNum → JsNum → Bool
  | some a, some b => decide (a ≤ b)
  | _, _ => false

/-- Decimal digit test (`'0' ≤ c && c ≤ '9'`, stated on code points:
`'0'` is 48 and `'9'` is 57). -/
def isDigitC (c : Char) : Bool := 48 ≤ c.toNat && c.toNat ≤ 57

/-- ASCII whitespace as trimmed by JS `Number`/`parseFloat`/`parseInt`
(space 32, tab 9, newline 10, carriage return 13; stated on code points). -/
def isWSChar (c : Char) : Bool :=
  c.toNat = 32 || c.toNat = 9 || c.toNat = 10 || c.toNat = 13

/-- Value of a digit string read in base 10 (junk chars contribute garbage;
only ever used on all-digit lists). -/
def digitsToNat (l : JSStr) : ℕ := l.foldl (fun a c => 10 * a + (c.toNat - 48)) 0

/-- Every character is a decimal digit. -/
def allDigits (l : JSStr) : Bool := l.all isDigitC

/-- Trim leading and trailing whitespace (JS `Number` coercion does this). -/
def trimWS (l : JSStr) : JSStr :=
  ((l.dropWhile isWSChar).reverse.dropWhile isWSChar).reverse

/-- Split an optional leading sign off a numeric literal, returning the
sign as `1` or `-1`. -/
def signSplit : JSStr → ℤ × JSStr
  | [] => (1, [])
  | c :: r => if c = '-' then (-1, r) else if c = '+' then (1, r) else (1, c :: r)

/-- JS `Number(string)` conversion, restricted to finite decimal literals
(optional sign, integer digits, optional fraction).  The host also accepts
hex / exponent / `Infinity` forms, which cannot occur in the timestamp
components this code feeds it; those forms are outside the model. -/
def jsNumber (s : JSStr) : JsNum :=
  let t := trimWS s
  if t = [] then some 0
  else
    let sg := signSplit t
    let d1 := sg.2.takeWhile isDigitC
    let r1 := sg.2.dropWhile isDigitC
    match r1 with
    | [] => if d1 = [] then none else some ((sg.1 : ℚ) * digitsToNat d1)
    | '.' :: r2 =>
      let d2 := r2.takeWhile isDigitC
      if r2.dropWhile isDigitC = [] then
        if d1 = [] && d2 = [] then none
        else some ((sg.1 : ℚ) * ((digitsToNat d1 : ℚ) + (digitsToNat d2 : ℚ) / 10 ^ d2.length))
      else none
    | _ => none

/-- JS `parseFloat`: parses the longest numeric prefix (sign, digits,
optional fraction) after skipping leading whitespace; `NaN` when no digit
is consumed.  Exponent suffixes are outside the model (see `jsNumber`). -/
def jsParseFloat (s : JSStr) : JsNum :=
  let t := s.dropWhile isWSChar
  let sg := signSplit t
  let d1 := sg.2.takeWhile isDigitC
  let r1 := sg.2.dropWhile isDigitC
  let d2 := match r1 with
            | '.' :: r2 => r2.takeWhile isDigitC
            | _ => []
  if d1 = [] && d2 = [] then none
  else some ((sg.1 : ℚ) * ((digitsToNat d1 : ℚ) + (digitsToNat d2 : ℚ) / 10 ^ d2.length))

/-- JS `parseInt` with no radix argument on decimal input: leading
whitespace, optional sign, longest digit prefix; `NaN` when no digit is
consumed.  (`0x`-prefixed inputs, which select radix 16, are outside the
model.) -/
def jsParseInt (s : JSStr) : Option ℤ :=
  let t := s.dropWhile isWSChar
  let sg := signSplit t
  let d1 := sg.2.takeWhile isDigitC
  if d1 = [] then none else some (sg.1 * digitsToNat d1)

/-- JS `String.prototype.split` on a single-element separator: splits at
every occurrence, keeping empty pieces (`"a,,b".split(',') = ["a","","b"]`,
`"".split(',') = [""]`). -/
def splitOnElem {α : Type} [DecidableEq α] (sep : α) : List α → List (List α)
  | [] => [[]]
  | c :: rest =>
    if c = sep then [] :: splitOnElem sep rest
    else
      match splitOnElem sep rest with
      | [] => [[c]]
      | p :: ps => (c :: p) :: ps

/-- JS `split` on a one-character separator string. -/
def jsSplit (sep : Char) (s : JSStr) : List JSStr := splitOnElem sep s

/-- JS `String.prototype.replace(a, b)` with one-character arguments:
replaces only the first occurrence. -/
def replaceFirst (a b : Char) : JSStr → JSStr
  | [] => []
  | c :: rest => if c = a then b :: rest else c :: replaceFirst a b rest

/-- JS array indexing `parts[i]` where `i` may be negative (negative and
out-of-range indices give `undefined`, modelled `none`). -/
def jsAt {α : Type} (l : List α) (i : ℤ) : Option α :=
  if 0 ≤ i then (l.drop i.toNat).head? else none

/-- JS `x || dflt` on an optional string: `undefined` and the empty string
are falsy and select the default. -/
def orDefaultStr (dflt : JSStr) : Option JSStr → JSStr
  | none => dflt
  | some [] => dflt
  | some l => l

/-- Lift a parsed integer to a JS number. -/
def intToNum : Option ℤ → JsNum
  | none => none
  | some z => some (z : ℚ)

/-- Decimal digits of `n` (empty for 0), structurally recursive on a fuel
argument (the fuel never runs out when it starts at `n`). -/
def natDigitsF : ℕ → ℕ → JSStr
  | _, 0 => []
  | 0, _ + 1 => []
  | fuel + 1, n + 1 => natDigitsF fuel ((n + 1) / 10) ++ [Char.ofNat (48 + (n + 1) % 10)]

/-- Decimal digits of a positive natural (empty for 0); helper for
`natRepr`. -/
def natDigits (n : ℕ) : JSStr := natDigitsF n n

/-- JS `Number.prototype.toString()` on a nonnegative integer value. -/
def natRepr (n : ℕ) : JSStr := if n = 0 then ['0'] else natDigits n

/-- JS `Number.prototype.toString()` on an integer value. -/
def intRepr (i : ℤ) : JSStr := if i < 0 then '-' :: natRepr i.natAbs else natRepr i.toNat

/-- JS `String.prototype.padStart(n, c)`. -/
def padStart (n : ℕ) (c : Char) (l : JSStr) : JSStr := List.replicate (n - l.length) c ++ l

/-- Truncation toward zero, as JS `%` uses. -/
def truncQ (q : ℚ) : ℤ := if 0 ≤ q then ⌊q⌋ else ⌈q⌉

/-- JS `%` on numbers (truncated remainder). -/
def jsMod (a b : ℚ) : ℚ := a - b * truncQ (a / b)

/-- JS `Array.prototype.flatten(sep)`. -/
def joinSep (sep : JSStr) : List JSStr → JSStr
  | [] => []
  | [x] => x
  | x :: y :: xs => x ++ sep ++ joinSep sep (y :: xs)

/-- JS `Array.prototype.map((x, i) => …)`, carrying the element index;
`mapWithIdx f k l` maps `l` with indices starting at `k`. -/
def mapWithIdx {α β : Type} (f : ℕ → α → β) : ℕ → List α → List β
  | _, [] => []
  | k, a :: as => f k a :: mapWithIdx f (k + 1) as

/-- Split on a multi-character separator starting with `c0`; pieces between
occurrences, empty pieces kept.  Structurally recursive on a fuel argument;
the fuel never runs out when it starts at the list length. -/
def splitOnSeqF (c0 : Char) (ctail : JSStr) : ℕ → JSStr → List JSStr
  | _, [] => [[]]
  | 0, l => [l]
  | fuel + 1, c :: rest =>
    if c = c0 ∧ ctail.isPrefixOf rest then
      [] :: splitOnSeqF c0 ctail fuel (rest.drop ctail.length)
    else
      match splitOnSeqF c0 ctail fuel rest with
      | [] => [[c]]
      | p :: ps => (c :: p) :: ps

/-- JS `split` on a multi-character separator string. -/
def splitOnSeq (sep : JSStr) (l : JSStr) : List JSStr :=
  match sep with
  | [] => [l]
  | c :: cs => splitOnSeqF c cs l.length l

/-! ## Data model (`src/types.ts`, `src/unnamed/part_000`) -/

/-- One timed bilingual subtitle segment (interface `Subtitle`). -/
structure Subtitle where
  index : ℤ
  startTime : JSStr
  endTime : JSStr
  originalText : JSStr
  translatedText : JSStr
  startSeconds : JsNum
  endSeconds : JsNum
deriving DecidableEq

/-- A raw segment as returned by the AI service, before seconds are
computed (the element shape of `rawSubs` in `processVideoWithAI`). -/
structure RawSegment where
  index : ℤ
  startTime : JSStr
  endTime : JSStr
  originalText : JSStr
  translatedText : JSStr
deriving DecidableEq

/-- The three export modes of `generateSRT` (`'en' | 'zh' | 'bilingual'`). -/
inductive SRTMode where
  | en
  | zh
  | bilingual
deriving DecidableEq

/-! ## `src/utils/srt.ts` -/

/-- The mode-selected text of one block in `generateSRT`. -/
def srtText (sub : Subtitle) : SRTMode → JSStr
  | .en => sub.originalText
  | .zh => sub.translatedText
  | .bilingual => sub.originalText ++ '\n' :: sub.translatedText

/-- One block of `generateSRT`'s output:
`` `${i + 1}\n${sub.startTime} --> ${sub.endTime}\n${text}\n` ``. -/
def srtBlock (i : ℕ) (sub : Subtitle) (mode : SRTMode) : JSStr :=
  natRepr (i + 1) ++ '\n' :: sub.startTime ++ str " --> " ++ sub.endTime
    ++ '\n' :: srtText sub mode ++ ['\n']

/-- `generateSRT` from `src/utils/srt.ts`:
`subtitles.map((sub, i) => block).flatten('\n')`. -/
def generateSRT (subtitles : List Subtitle) (mode : SRTMode) : JSStr :=
  joinSep ['\n'] (mapWithIdx (fun i sub => srtBlock i sub mode) 0 subtitles)

/-- `parseTimeToSeconds` from `src/utils/srt.ts`:
`const [hms, ms] = timeStr.split(','); const [h, m, s] = hms.split(':').map(Number);
return h * 3600 + m * 60 + s + Number(ms) / 1000;`
Missing destructured components are `undefined`, and `Number(undefined)`
is `NaN` (`none`). -/
def parseTimeToSeconds (timeStr : JSStr) : JsNum :=
  let parts := jsSplit ',' timeStr
  let hms := parts.getD 0 []
  let nums := (jsSplit ':' hms).map jsNumber
  let h := nums.getD 0 none
  let m := nums.getD 1 none
  let s := nums.getD 2 none
  let ms := match parts with
            | _ :: msStr :: _ => jsNumber msStr
            | _ => none
  jsAdd (jsAdd (jsAdd (jsMul h (some 3600)) (jsMul m (some 60))) s) (jsDiv ms (some 1000))

/-! ## `src/services/gemini.ts` -/

/-- `parseSRTTime` from `src/services/gemini.ts`:
`const parts = timeStr.replace(',', '.').split(':');
const seconds = parseFloat(parts[parts.length - 1]);
const minutes = parseInt(parts[parts.length - 2] || "0");
const hours = parseInt(parts[parts.length - 3] || "0");
return hours * 3600 + minutes * 60 + seconds;` -/
def parseSRTTime (timeStr : JSStr) : JsNum :=
  let parts := jsSplit ':' (replaceFirst ',' '.' timeStr)
  let n : ℤ := parts.length
  let seconds := match jsAt parts (n - 1) with
                 | some p => jsParseFloat p
                 | none => none
  let minutes := jsParseInt (orDefaultStr (str "0") (jsAt parts (n - 2)))
  let hours := jsParseInt (orDefaultStr (str "0") (jsAt parts (n - 3)))
  jsAdd (jsAdd (jsMul (intToNum hours) (some 3600)) (jsMul (intToNum minutes) (some 60))) seconds

/-- Attach computed seconds to a raw segment, as `processVideoWithAI` does:
`{ ...sub, startSeconds: parseSRTTime(sub.startTime), endSeconds: parseSRTTime(sub.endTime) }`. -/
def rawToSubtitle (sub : RawSegment) : Subtitle :=
  { index := sub.index
    startTime := sub.startTime
    endTime := sub.endTime
    originalText := sub.originalText
    translatedText := sub.translatedText
    startSeconds := parseSRTTime sub.startTime
    endSeconds := parseSRTTime sub.endTime }

/-- Comparator order used by `processed.sort((a, b) => a.startSeconds - b.startSeconds)`.
The comparator's behaviour when a `startSeconds` is `NaN` is unspecified in
JS (an inconsistent comparator); the model orders `NaN` first.  Every claim
about the sort concerns `NaN`-free inputs only. -/
def jsNumLeB : JsNum → JsNum → Bool
  | none, _ => true
  | some _, none => false
  | some a, some b => decide (a ≤ b)

/-- The comparator order as a proposition. -/
def subLe (a b : Subtitle) : Prop := jsNumLeB a.startSeconds b.startSeconds = true

instance : DecidableRel subLe := fun a b => by unfold subLe; infer_instance

instance : IsTotal Subtitle subLe := by
  constructor
  intro a b
  unfold subLe jsNumLeB
  rcases a.startSeconds with _ | x <;> rcases b.startSeconds with _ | y <;> simp
  exact le_total x y

instance : IsTrans Subtitle subLe := by
  constructor
  intro a b c
  unfold subLe jsNumLeB
  rcases a.startSeconds with _ | x <;> rcases b.startSeconds with _ | y <;>
    rcases c.startSeconds with _ | z <;> simp
  exact le_trans

/-- The pure core of `processVideoWithAI` (`src/services/gemini.ts`): the
parsed segments get `startSeconds`/`endSeconds` via `parseSRTTime` and are
sorted ascending by `startSeconds`.  JS `Array.prototype.sort` is required
to be stable (ES2019), so it is modelled by a stable sort. -/
def processVideoWithAI (rawSubs : List RawSegment) : List Subtitle :=
  (rawSubs.map rawToSubtitle).insertionSort subLe

/-! ## `src/components/SubtitleOverlay` and `App.synthesizeVideo` lookup -/

/-- The active-subtitle predicate used (identically) in `SubtitleOverlay`
and `synthesizeVideo`: `currentTime >= s.startSeconds && currentTime <= s.endSeconds`. -/
def isActiveAt (t : ℚ) (s : Subtitle) : Bool :=
  jsLe s.startSeconds (some t) && jsLe (some t) s.endSeconds

/-- `subtitles.find(s => currentTime >= s.startSeconds && currentTime <= s.endSeconds)`:
the active-subtitle lookup (spec name `findActive`). -/
def findActive (subtitles : List Subtitle) (t : ℚ) : Option Subtitle :=
  subtitles.find? (isActiveAt t)

/-! ## `App.formatTime` (`src/unnamed/part_001`) -/

/-- `formatTime` from the app shell:
`const h = Math.floor(seconds / 3600); const m = Math.floor((seconds % 3600) / 60);
const s = Math.floor(seconds % 60);
return [h, m, s].map(v => v.toString().padStart(2, '0')).flatten(':');` -/
def formatTime (seconds : ℚ) : JSStr :=
  let h := ⌊seconds / 3600⌋
  let m := ⌊jsMod seconds 3600 / 60⌋
  let s := ⌊jsMod seconds 60⌋
  joinSep [':'] (([h, m, s]).map (fun v => padStart 2 '0' (intRepr v)))

/-! ## `App.synthesizeVideo` overlay layout (`src/unnamed/part_001`) -/

/-- The compositing instruction computed per frame by `synthesizeVideo`
for an active subtitle. -/
structure OverlayInstruction where
  originalText : JSStr
  translatedText : JSStr
  fontSizeEn : ℚ
  fontSizeZh : ℚ
  bottomOffset : ℚ
  boxX : ℚ
  boxY : ℚ
  boxWidth : ℚ
  boxHeight : ℚ
deriving DecidableEq

/-- The overlay layout block of `synthesizeVideo`.  `measure fs text`
abstracts `ctx.measureText(text).width` with the font size set to `fs`
(the canvas text-measurement oracle). -/
def composeOverlay (measure : ℚ → JSStr → ℚ) (canvasWidth canvasHeight : ℚ)
    (sub : Subtitle) : OverlayInstruction :=
  let padding : ℚ := 20
  let fontSizeEn := canvasHeight * 0.04
  let fontSizeZh := canvasHeight * 0.035
  let bottomOffset := canvasHeight * 0.08
  let textEnWidth := measure fontSizeEn sub.originalText
  let textZhWidth := measure fontSizeZh sub.translatedText
  let boxWidth := max textEnWidth textZhWidth + padding * 2
  let boxHeight := fontSizeEn + fontSizeZh + padding * 2
  let boxX := (canvasWidth - boxWidth) / 2
  let boxY := canvasHeight - boxHeight - bottomOffset
  { originalText := sub.originalText
    translatedText := sub.translatedText
    fontSizeEn := fontSizeEn
    fontSizeZh := fontSizeZh
    bottomOffset := bottomOffset
    boxX := boxX
    boxY := boxY
    boxWidth := boxWidth
    boxHeight := boxHeight }

/-! ## SRT deserialization (spec §4.3; absent from `src/`) -/

/-- The `" --> "` separator of an SRT timing line. -/
def arrowSep : JSStr := str " --> "

/-- Modelled from the spec: one block of `deserialize` — parses the
sequence number (skipping the block when it is non-numeric), the
`<start> --> <end>` line (skipping the block when the separator is
missing), and the remaining lines as texts (first line = source text,
second line = target text, else empty). -/
def parseBlock (lines : List JSStr) : Option Subtitle :=
  match lines with
  | num :: timing :: rest =>
    if allDigits num && !num.isEmpty then
      match splitOnSeq arrowSep timing with
      | [st, en] =>
        some { index := (digitsToNat num : ℤ)
               startTime := st
               endTime := en
               originalText := (rest.getD 0 [])
               translatedText := (rest.getD 1 [])
               startSeconds := parseTimeToSeconds st
               endSeconds := parseTimeToSeconds en }
      | _ => none
    else none
  | _ => none

/-- Modelled from the spec: `deserialize(text)` splits the text into
blank-line-delimited blocks and parses each block with `parseBlock`,
skipping malformed blocks. -/
def deserialize (text : JSStr) : List Subtitle :=
  (splitOnElem ([] : JSStr) (jsSplit '\n' text)).filterMap parseBlock

/-! ## Concrete fixtures and statement helpers -/

/-- The four text fields of a subtitle that the bilingual round trip is
required to reconstruct (`index` and the derived seconds are exempt). -/
def textFields (s : Subtitle) : JSStr × JSStr × JSStr × JSStr :=
  (s.startTime, s.endTime, s.originalText, s.translatedText)

/-- Replace a subtitle's stored `index`, leaving every other field alone. -/
def setIndex (z : ℤ) (s : Subtitle) : Subtitle := { s with index := z }

/-- A text-measurement oracle that returns the font size itself: a
resolution-proportional measure used to exhibit the fixed-padding
counterexample. -/
def measureLinear : ℚ → JSStr → ℚ := fun fs _ => fs

/-- A single subtitle spanning `[2.0, 4.0]` (spec test of §8.3). -/
def sub24 : Subtitle :=
  { index := 1, startTime := str "00:00:02,000", endTime := str "00:00:04,000"
    originalText := str "hello", translatedText := str "你好"
    startSeconds := some 2, endSeconds := some 4 }

/-- Overlap fixture `A = [0, 5]` (spec test of §8.4). -/
def subA0 : Subtitle :=
  { index := 1, startTime := str "00:00:00,000", endTime := str "00:00:05,000"
    originalText := str "A", translatedText := str "甲"
    startSeconds := some 0, endSeconds := some 5 }

/-- Overlap fixture `B = [3, 8]` (spec test of §8.4). -/
def subB3 : Subtitle :=
  { index := 2, startTime := str "00:00:03,000", endTime := str "00:00:08,000"
    originalText := str "B", translatedText := str "乙"
    startSeconds := some 3, endSeconds := some 8 }

/-- Renumbering fixture with stored index 5 (spec tests of §8.5 and §8.6). -/
def subI5 : Subtitle :=
  { index := 5, startTime := str "00:00:01,000", endTime := str "00:00:02,500"
    originalText := str "Hi", translatedText := str "嗨"
    startSeconds := some 1, endSeconds := some (5 / 2) }

/-- Renumbering fixture with stored index 2 (spec test of §8.6). -/
def subI2 : Subtitle :=
  { index := 2, startTime := str "00:00:03,000", endTime := str "00:00:04,000"
    originalText := str "Yo", translatedText := str "哟"
    startSeconds := some 3, endSeconds := some 4 }

/-- A subtitle whose `originalText` is the empty string: serialized in
bilingual mode its block starts with a blank text line, which the
blank-line block splitting of `deserialize` cannot restore. -/
def c8bad : Subtitle :=
  { index := 1, startTime := str "00:00:01,000", endTime := str "00:00:02,000"
    originalText := [], translatedText := str "x"
    startSeconds := some 1, endSeconds := some 2 }

/-- Raw segment starting at 10 s, appearing first (spec test of §8.2). -/
def raw10a : RawSegment :=
  { index := 1, startTime := str "00:00:10,000", endTime := str "00:00:11,000"
    originalText := str "a", translatedText := str "甲" }

/-- Raw segment starting at 5 s (spec test of §8.2). -/
def raw5 : RawSegment :=
  { index := 2, startTime := str "00:00:05,000", endTime := str "00:00:06,000"
    originalText := str "b", translatedText := str "乙" }

/-- Raw segment starting at 10 s, appearing last (spec test of §8.2). -/
def raw10b : RawSegment :=
  { index := 3, startTime := str "00:00:10,000", endTime := str "00:00:12,000"
    originalText := str "c", translatedText := str "丙" }

/-! ## Character and digit lemmas -/

theorem ne_of_toNat_ne {c d : Char} (h : c.toNat ≠ d.toNat) : c ≠ d := by
  intro e
  exact h (congrArg Char.toNat e)

theorem isDigitC_toNat {c : Char} (h : isDigitC c = true) : 48 ≤ c.toNat ∧ c.toNat ≤ 57 := by
  simpa [isDigitC] using h

theorem digit_not_ws {c : Char} (h : isDigitC c = true) : isWSChar c = false := by
  have h2 := isDigitC_toNat h
  simp only [isWSChar, Bool.or_eq_false_iff, decide_eq_false_iff_not]
  omega

theorem digit_ne {c : Char} (h : isDigitC c = true) {d : Char}
    (hd : d.toNat < 48 ∨ 57 < d.toNat) : c ≠ d := by
  have h2 := isDigitC_toNat h
  intro e
  subst e
  omega

theorem not_mem_of_all_digits {l : JSStr} (h : ∀ c ∈ l, isDigitC c = true) (d : Char)
    (hd : d.toNat < 48 ∨ 57 < d.toNat) : d ∉ l := by
  intro hm
  have h2 := isDigitC_toNat (h d hm)
  omega

theorem allDigits_iff {l : JSStr} : allDigits l = true ↔ ∀ c ∈ l, isDigitC c = true := by
  simp [allDigits, List.all_eq_true]

theorem digitsToNat_foldl_acc (l : JSStr) (a : ℕ) :
    l.foldl (fun a c => 10 * a + (c.toNat - 48)) a = a * 10 ^ l.length + digitsToNat l := by
  induction l generalizing a with
  | nil => simp [digitsToNat]
  | cons c rest ih =>
    have hcons : digitsToNat (c :: rest)
        = (10 * 0 + (c.toNat - 48)) * 10 ^ rest.length + digitsToNat rest := by
      rw [digitsToNat, List.foldl_cons, ih]
    rw [List.foldl_cons, ih, hcons, List.length_cons]
    ring

theorem digitsToNat_snoc (l : JSStr) (c : Char) :
    digitsToNat (l ++ [c]) = 10 * digitsToNat l + (c.toNat - 48) := by
  rw [digitsToNat, List.foldl_append]
  rfl

theorem digitsToNat_replicate_zero (k : ℕ) (l : JSStr) :
    digitsToNat (List.replicate k '0' ++ l) = digitsToNat l := by
  induction k with
  | zero => rfl
  | succ n ih =>
    rw [List.replicate_succ, List.cons_append]
    show digitsToNat (List.replicate n '0' ++ l) = digitsToNat l
    exact ih

theorem toNat_digitChar {d : ℕ} (h : d < 10) : (Char.ofNat (48 + d)).toNat = 48 + d := by
  interval_cases d <;> decide

theorem isDigitC_digitChar {d : ℕ} (h : d < 10) : isDigitC (Char.ofNat (48 + d)) = true := by
  interval_cases d <;> decide

theorem natDigitsF_of_le {fuel n : ℕ} (h : n ≤ fuel) : natDigitsF fuel n = natDigitsF n n := by
  induction fuel using Nat.strong_induction_on generalizing n with
  | _ fuel ih =>
    match fuel, n, h with
    | fuel, 0, _ => simp [natDigitsF]
    | fuel + 1, k + 1, h =>
      rw [natDigitsF]
      have hd : (k + 1) / 10 ≤ fuel := le_trans (Nat.le_of_lt_succ
        (Nat.div_lt_self (Nat.succ_pos k) (by omega))) (by omega)
      have hd2 : (k + 1) / 10 ≤ k :=
        Nat.le_of_lt_succ (Nat.div_lt_self (Nat.succ_pos k) (by omega))
      rw [ih fuel (by omega) hd, ← ih k (by omega) hd2]
      conv_rhs => rw [show natDigitsF (k + 1) (k + 1)
        = natDigitsF k ((k + 1) / 10) ++ [Char.ofNat (48 + (k + 1) % 10)] from rfl]

theorem allDigits_natDigits (n : ℕ) : allDigits (natDigits n) = true := by
  induction n using Nat.strong_induction_on with
  | _ n ih =>
    match n with
    | 0 => rfl
    | k + 1 =>
      rw [natDigits, show natDigitsF (k + 1) (k + 1)
          = natDigitsF k ((k + 1) / 10) ++ [Char.ofNat (48 + (k + 1) % 10)] from rfl,
        natDigitsF_of_le (Nat.le_of_lt_succ (Nat.div_lt_self (Nat.succ_pos k) (by omega)))]
      rw [show natDigitsF ((k + 1) / 10) ((k + 1) / 10) = natDigits ((k + 1) / 10) from rfl]
      rw [allDigits, List.all_append]
      have h1 : allDigits (natDigits ((k + 1) / 10)) = true :=
        ih _ (Nat.div_lt_self (Nat.succ_pos k) (by omega))
      rw [allDigits] at h1
      rw [h1]
      simp [isDigitC_digitChar (Nat.mod_lt (k + 1) (by omega))]

theorem digitsToNat_natDigits (n : ℕ) : digitsToNat (natDigits n) = n := by
  induction n using Nat.strong_induction_on with
  | _ n ih =>
    match n with
    | 0 => rfl
    | k + 1 =>
      rw [natDigits, show natDigitsF (k + 1) (k + 1)
          = natDigitsF k ((k + 1) / 10) ++ [Char.ofNat (48 + (k + 1) % 10)] from rfl,
        natDigitsF_of_le (Nat.le_of_lt_succ (Nat.div_lt_self (Nat.succ_pos k) (by omega)))]
      rw [show natDigitsF ((k + 1) / 10) ((k + 1) / 10) = natDigits ((k + 1) / 10) from rfl]
      rw [digitsToNat_snoc,
        ih _ (Nat.div_lt_self (Nat.succ_pos k) (by omega)),
        toNat_digitChar (Nat.mod_lt (k + 1) (by omega))]
      omega

theorem natDigits_ne_nil {n : ℕ} (h : n ≠ 0) : natDigits n ≠ [] := by
  match n with
  | 0 => exact absurd rfl h
  | k + 1 =>
    rw [natDigits, show natDigitsF (k + 1) (k + 1)
      = natDigitsF k ((k + 1) / 10) ++ [Char.ofNat (48 + (k + 1) % 10)] from rfl]
    simp

theorem allDigits_natRepr (n : ℕ) : allDigits (natRepr n) = true := by
  rw [natRepr]
  split
  · decide
  · exact allDigits_natDigits n

theorem digitsToNat_natRepr (n : ℕ) : digitsToNat (natRepr n) = n := by
  rw [natRepr]
  split
  · subst ‹n = 0›; decide
  · exact digitsToNat_natDigits n

theorem natRepr_ne_nil (n : ℕ) : natRepr n ≠ [] := by
  rw [natRepr]
  split
  · simp
  · exact natDigits_ne_nil ‹n ≠ 0›

theorem mem_natRepr_digit {c : Char} {n : ℕ} (h : c ∈ natRepr n) : isDigitC c = true :=
  allDigits_iff.1 (allDigits_natRepr n) c h

theorem allDigits_padStart {l : JSStr} (h : allDigits l = true) (n : ℕ) :
    allDigits (padStart n '0' l) = true := by
  rw [allDigits_iff] at h ⊢
  intro c hc
  rcases List.mem_append.1 hc with hc | hc
  · rw [List.eq_of_mem_replicate hc]; decide
  · exact h c hc

theorem digitsToNat_padStart (n : ℕ) (l : JSStr) :
    digitsToNat (padStart n '0' l) = digitsToNat l :=
  digitsToNat_replicate_zero _ l

theorem padStart_two_ne_nil (l : JSStr) : padStart 2 '0' l ≠ [] := by
  match l with
  | [] => decide
  | c :: r => simp [padStart]

/-! ## takeWhile / dropWhile / trim helpers -/

theorem takeWhile_of_all {p : Char → Bool} {l : JSStr} (h : ∀ c ∈ l, p c = true) :
    l.takeWhile p = l := by
  induction l with
  | nil => rfl
  | cons c rest ih =>
    rw [List.takeWhile_cons, h c (List.mem_cons_self c rest)]
    simpa using ih fun d hd => h d (List.mem_cons_of_mem c hd)

theorem dropWhile_of_all {p : Char → Bool} {l : JSStr} (h : ∀ c ∈ l, p c = true) :
    l.dropWhile p = [] := by
  induction l with
  | nil => rfl
  | cons c rest ih =>
    rw [List.dropWhile_cons, h c (List.mem_cons_self c rest)]
    simpa using ih fun d hd => h d (List.mem_cons_of_mem c hd)

theorem takeWhile_append_stop {p : Char → Bool} {l₁ : JSStr} (x : Char) (l₂ : JSStr)
    (h : ∀ c ∈ l₁, p c = true) (hx : p x = false) :
    (l₁ ++ x :: l₂).takeWhile p = l₁ := by
  induction l₁ with
  | nil => simp [List.takeWhile_cons, hx]
  | cons c rest ih =>
    rw [List.cons_append, List.takeWhile_cons, h c (List.mem_cons_self c rest)]
    simpa using ih fun d hd => h d (List.mem_cons_of_mem c hd)

theorem dropWhile_append_stop {p : Char → Bool} {l₁ : JSStr} (x : Char) (l₂ : JSStr)
    (h : ∀ c ∈ l₁, p c = true) (hx : p x = false) :
    (l₁ ++ x :: l₂).dropWhile p = x :: l₂ := by
  induction l₁ with
  | nil => simp [List.dropWhile_cons, hx]
  | cons c rest ih =>
    rw [List.cons_append, List.dropWhile_cons, h c (List.mem_cons_self c rest)]
    simpa using ih fun d hd => h d (List.mem_cons_of_mem c hd)

theorem dropWhile_of_none {p : Char → Bool} {l : JSStr} (h : ∀ c ∈ l, p c = false) :
    l.dropWhile p = l := by
  cases l with
  | nil => rfl
  | cons c rest => simp [List.dropWhile_cons, h c (List.mem_cons_self c rest)]

theorem trimWS_of_no_ws {l : JSStr} (h : ∀ c ∈ l, isWSChar c = false) : trimWS l = l := by
  rw [trimWS, dropWhile_of_none h, dropWhile_of_none fun c hc => h c (List.mem_reverse.1 hc),
    List.reverse_reverse]

theorem trimWS_digits {l : JSStr} (h : ∀ c ∈ l, isDigitC c = true) : trimWS l = l :=
  trimWS_of_no_ws fun c hc => digit_not_ws (h c hc)

theorem signSplit_of_digits {l : JSStr} (h : ∀ c ∈ l, isDigitC c = true) :
    signSplit l = (1, l) := by
  match l with
  | [] => rfl
  | c :: r =>
    have hc := h c (List.mem_cons_self c r)
    rw [signSplit, if_neg (digit_ne hc (by decide)), if_neg (digit_ne hc (by decide))]

/-! ## Split / replace lemmas -/

theorem splitOnElem_ne_nil {α : Type} [DecidableEq α] (sep : α) (l : List α) :
    splitOnElem sep l ≠ [] := by
  induction l with
  | nil => simp [splitOnElem]
  | cons c rest ih =>
    rw [splitOnElem]
    split
    · simp
    · cases h : splitOnElem sep rest with
      | nil => simp
      | cons p ps => simp [h]

theorem splitOnElem_of_not_mem {α : Type} [DecidableEq α] {sep : α} {l : List α}
    (h : sep ∉ l) : splitOnElem sep l = [l] := by
  induction l with
  | nil => rfl
  | cons c rest ih =>
    rw [splitOnElem, if_neg (by rintro rfl; exact h (List.mem_cons_self c rest)),
      ih fun hm => h (List.mem_cons_of_mem c hm)]

theorem splitOnElem_append {α : Type} [DecidableEq α] {sep : α} {l₁ : List α} (l₂ : List α)
    (h : sep ∉ l₁) : splitOnElem sep (l₁ ++ sep :: l₂) = l₁ :: splitOnElem sep l₂ := by
  induction l₁ with
  | nil => rw [List.nil_append, splitOnElem, if_pos rfl]
  | cons c rest ih =>
    rw [List.cons_append, splitOnElem, if_neg (by rintro rfl; exact h (List.mem_cons_self c rest)),
      ih fun hm => h (List.mem_cons_of_mem c hm)]

theorem splitOnElem_append_general {α : Type} [DecidableEq α] (sep : α) (a b : List α) :
    splitOnElem sep (a ++ sep :: b) = splitOnElem sep a ++ splitOnElem sep b := by
  induction a with
  | nil =>
    rw [List.nil_append, splitOnElem]
    simp [splitOnElem]
  | cons c rest ih =>
    rw [List.cons_append, splitOnElem, splitOnElem]
    split
    · rw [ih]; rfl
    · rw [ih]
      cases h : splitOnElem sep rest with
      | nil => exact absurd h (splitOnElem_ne_nil sep rest)
      | cons p ps => rfl

theorem replaceFirst_of_not_mem {a b : Char} {l : JSStr} (h : a ∉ l) :
    replaceFirst a b l = l := by
  induction l with
  | nil => rfl
  | cons c rest ih =>
    rw [replaceFirst, if_neg (by rintro rfl; exact h (List.mem_cons_self c rest)),
      ih fun hm => h (List.mem_cons_of_mem c hm)]

theorem replaceFirst_append {a b : Char} {l₁ : JSStr} (l₂ : JSStr) (h : a ∉ l₁) :
    replaceFirst a b (l₁ ++ a :: l₂) = l₁ ++ b :: l₂ := by
  induction l₁ with
  | nil => rw [List.nil_append, replaceFirst, if_pos rfl]; rfl
  | cons c rest ih =>
    rw [List.cons_append, replaceFirst, if_neg (by rintro rfl; exact h (List.mem_cons_self c rest)),
      ih fun hm => h (List.mem_cons_of_mem c hm), List.cons_append]

/-! ## JS number lemmas -/

theorem jsAdd_none_right (x : JsNum) : jsAdd x none = none := by cases x <;> rfl

theorem jsAdd_some (a b : ℚ) : jsAdd (some a) (some b) = some (a + b) := rfl

theorem jsMul_some (a b : ℚ) : jsMul (some a) (some b) = some (a * b) := rfl

theorem jsDiv_some_1000 (a : ℚ) : jsDiv (some a) (some 1000) = some (a / 1000) := by
  rw [jsDiv]
  norm_num

theorem dropWS_of_digits {l : JSStr} (h : ∀ c ∈ l, isDigitC c = true) :
    l.dropWhile isWSChar = l :=
  dropWhile_of_none fun c hc => digit_not_ws (h c hc)

theorem signSplit_no_sign {c : Char} (r : JSStr) (h1 : c ≠ '-') (h2 : c ≠ '+') :
    signSplit (c :: r) = (1, c :: r) := by
  rw [signSplit, if_neg h1, if_neg h2]

theorem digitsToNat_nil : digitsToNat [] = 0 := rfl

theorem jsNumber_digits {l : JSStr} (h : ∀ c ∈ l, isDigitC c = true) (hne : l ≠ []) :
    jsNumber l = some (digitsToNat l : ℚ) := by
  have h1 : trimWS l = l := trimWS_digits h
  have h2 : signSplit l = (1, l) := signSplit_of_digits h
  have h3 : l.takeWhile isDigitC = l := takeWhile_of_all h
  have h4 : l.dropWhile isDigitC = [] := dropWhile_of_all h
  simp only [jsNumber, h1, if_neg hne, h2, h3, h4]
  norm_num

theorem jsParseInt_digits {l : JSStr} (h : ∀ c ∈ l, isDigitC c = true) (hne : l ≠ []) :
    jsParseInt l = some (digitsToNat l : ℤ) := by
  have h1 : l.dropWhile isWSChar = l := dropWS_of_digits h
  have h2 : signSplit l = (1, l) := signSplit_of_digits h
  have h3 : l.takeWhile isDigitC = l := takeWhile_of_all h
  simp only [jsParseInt, h1, h2, h3, if_neg hne]
  norm_num

theorem jsParseFloat_digits {l : JSStr} (h : ∀ c ∈ l, isDigitC c = true) (hne : l ≠ []) :
    jsParseFloat l = some (digitsToNat l : ℚ) := by
  have h1 : l.dropWhile isWSChar = l := dropWS_of_digits h
  have h2 : signSplit l = (1, l) := signSplit_of_digits h
  have h3 : l.takeWhile isDigitC = l := takeWhile_of_all h
  have h4 : l.dropWhile isDigitC = [] := dropWhile_of_all h
  simp only [jsParseFloat, h1, h2, h3, h4]
  rw [if_neg (by simp [hne])]
  norm_num [digitsToNat_nil]

theorem jsParseFloat_digits_frac {a b : JSStr} (ha : ∀ c ∈ a, isDigitC c = true)
    (hane : a ≠ []) (hb : ∀ c ∈ b, isDigitC c = true) :
    jsParseFloat (a ++ '.' :: b)
      = some ((digitsToNat a : ℚ) + (digitsToNat b : ℚ) / 10 ^ b.length) := by
  obtain ⟨c0, a', rfl⟩ : ∃ c0 a', a = c0 :: a' := by
    cases a with
    | nil => exact absurd rfl hane
    | cons c0 a' => exact ⟨c0, a', rfl⟩
  have hc0 := ha c0 (List.mem_cons_self c0 a')
  have ha' : ∀ c ∈ a', isDigitC c = true := fun c hc => ha c (List.mem_cons_of_mem c0 hc)
  rw [List.cons_append]
  have hnows : ∀ c ∈ c0 :: (a' ++ '.' :: b), isWSChar c = false := by
    intro c hc
    rcases List.mem_cons.1 hc with rfl | hc
    · exact digit_not_ws hc0
    · rcases List.mem_append.1 hc with hc | hc
      · exact digit_not_ws (ha' c hc)
      · rcases List.mem_cons.1 hc with rfl | hc
        · decide
        · exact digit_not_ws (hb c hc)
  simp only [jsParseFloat, dropWhile_of_none hnows,
    signSplit_no_sign _ (digit_ne hc0 (by decide)) (digit_ne hc0 (by decide)),
    List.takeWhile_cons, List.dropWhile_cons, hc0, if_true,
    takeWhile_append_stop '.' b ha' (by decide), dropWhile_append_stop '.' b ha' (by decide),
    takeWhile_of_all hb]
  rw [if_neg (by simp)]
  norm_num

/-! ## Parser lemmas on canonical shapes -/

theorem jsAt_len_sub_one {α : Type} (a b c : α) :
    jsAt [a, b, c] (([a, b, c].length : ℤ) - 1) = some c := rfl

theorem jsAt_len_sub_two {α : Type} (a b c : α) :
    jsAt [a, b, c] (([a, b, c].length : ℤ) - 2) = some b := rfl

theorem jsAt_len_sub_three {α : Type} (a b c : α) :
    jsAt [a, b, c] (([a, b, c].length : ℤ) - 3) = some a := rfl

theorem intToNum_some (z : ℤ) : intToNum (some z) = some (z : ℚ) := rfl

theorem orDefaultStr_some_ne {d l : JSStr} (h : l ≠ []) : orDefaultStr d (some l) = l := by
  cases l with
  | nil => exact absurd rfl h
  | cons c r => rfl

theorem parseTimeToSeconds_no_comma {l : JSStr} (h : ',' ∉ l) :
    parseTimeToSeconds l = none := by
  simp only [parseTimeToSeconds, jsSplit, splitOnElem_of_not_mem h]
  exact jsAdd_none_right _

theorem colon_split_triple {H M S : JSStr} (hH : ':' ∉ H) (hM : ':' ∉ M) (hS : ':' ∉ S) :
    jsSplit ':' (H ++ ':' :: (M ++ ':' :: S)) = [H, M, S] := by
  rw [jsSplit, splitOnElem_append _ hH, splitOnElem_append _ hM, splitOnElem_of_not_mem hS]

theorem not_mem_append_cons {d x : Char} {l₁ l₂ : JSStr} (hd : d ≠ x) (h1 : d ∉ l₁)
    (h2 : d ∉ l₂) : d ∉ l₁ ++ x :: l₂ := by
  intro hm
  rcases List.mem_append.1 hm with hm | hm
  · exact h1 hm
  · rcases List.mem_cons.1 hm with rfl | hm
    · exact hd rfl
    · exact h2 hm

theorem parseTimeToSeconds_canonical {H M S MS : JSStr}
    (hH : ∀ c ∈ H, isDigitC c = true) (hHne : H ≠ [])
    (hM : ∀ c ∈ M, isDigitC c = true) (hMne : M ≠ [])
    (hS : ∀ c ∈ S, isDigitC c = true) (hSne : S ≠ [])
    (hMS : ∀ c ∈ MS, isDigitC c = true) (hMSne : MS ≠ []) :
    parseTimeToSeconds (H ++ ':' :: (M ++ ':' :: (S ++ ',' :: MS)))
      = some ((digitsToNat H : ℚ) * 3600 + (digitsToNat M : ℚ) * 60 + (digitsToNat S : ℚ)
          + (digitsToNat MS : ℚ) / 1000) := by
  have hcombine : H ++ ':' :: (M ++ ':' :: (S ++ ',' :: MS))
      = (H ++ ':' :: (M ++ ':' :: S)) ++ ',' :: MS := by
    simp [List.append_assoc]
  have hcommaH := not_mem_of_all_digits hH ',' (by decide)
  have hcommaM := not_mem_of_all_digits hM ',' (by decide)
  have hcommaS := not_mem_of_all_digits hS ',' (by decide)
  have hcommaP : ',' ∉ H ++ ':' :: (M ++ ':' :: S) :=
    not_mem_append_cons (by decide) hcommaH
      (not_mem_append_cons (by decide) hcommaM hcommaS)
  have hcommaMS := not_mem_of_all_digits hMS ',' (by decide)
  rw [parseTimeToSeconds, hcombine]
  simp only [jsSplit, splitOnElem_append _ hcommaP, splitOnElem_of_not_mem hcommaMS]
  simp only [List.getD, List.get?_cons_zero, List.get?_cons_succ, Option.getD_some]
  rw [show splitOnElem ':' (H ++ ':' :: (M ++ ':' :: S)) = [H, M, S] from
    colon_split_triple (not_mem_of_all_digits hH ':' (by decide))
      (not_mem_of_all_digits hM ':' (by decide)) (not_mem_of_all_digits hS ':' (by decide))]
  simp only [List.map_cons, List.map_nil, jsNumber_digits hH hHne, jsNumber_digits hM hMne,
    jsNumber_digits hS hSne, jsNumber_digits hMS hMSne, List.getD, List.get?_cons_zero,
    List.get?_cons_succ, Option.getD_some]
  rw [jsMul_some, jsMul_some, jsAdd_some, jsAdd_some, jsDiv_some_1000, jsAdd_some]

theorem parseSRTTime_dot {H M S MS : JSStr}
    (hH : ∀ c ∈ H, isDigitC c = true) (hHne : H ≠ [])
    (hM : ∀ c ∈ M, isDigitC c = true) (hMne : M ≠ [])
    (hS : ∀ c ∈ S, isDigitC c = true) (hSne : S ≠ [])
    (hMS : ∀ c ∈ MS, isDigitC c = true) :
    parseSRTTime (H ++ ':' :: (M ++ ':' :: (S ++ '.' :: MS)))
      = some ((digitsToNat H : ℚ) * 3600 + (digitsToNat M : ℚ) * 60
          + ((digitsToNat S : ℚ) + (digitsToNat MS : ℚ) / 10 ^ MS.length)) := by
  have hnocomma : ',' ∉ H ++ ':' :: (M ++ ':' :: (S ++ '.' :: MS)) := by
    refine not_mem_append_cons (by decide) (not_mem_of_all_digits hH ',' (by decide)) ?_
    refine not_mem_append_cons (by decide) (not_mem_of_all_digits hM ',' (by decide)) ?_
    exact not_mem_append_cons (by decide) (not_mem_of_all_digits hS ',' (by decide))
      (not_mem_of_all_digits hMS ',' (by decide))
  have hcolonTail : ':' ∉ S ++ '.' :: MS :=
    not_mem_append_cons (by decide) (not_mem_of_all_digits hS ':' (by decide))
      (not_mem_of_all_digits hMS ':' (by decide))
  rw [parseSRTTime]
  simp only [replaceFirst_of_not_mem hnocomma]
  rw [show jsSplit ':' (H ++ ':' :: (M ++ ':' :: (S ++ '.' :: MS))) = [H, M, S ++ '.' :: MS] from by
    rw [jsSplit, splitOnElem_append _ (not_mem_of_all_digits hH ':' (by decide)),
      splitOnElem_append _ (not_mem_of_all_digits hM ':' (by decide)),
      splitOnElem_of_not_mem hcolonTail]]
  simp only [jsAt_len_sub_one, jsAt_len_sub_two, jsAt_len_sub_three,
    orDefaultStr_some_ne hMne, orDefaultStr_some_ne hHne,
    jsParseFloat_digits_frac hS hSne hMS,
    jsParseInt_digits hM hMne, jsParseInt_digits hH hHne, intToNum_some]
  rw [jsMul_some, jsMul_some, jsAdd_some, jsAdd_some]
  simp only [Option.some.injEq]
  push_cast
  ring

theorem parseSRTTime_comma {H M S MS : JSStr}
    (hH : ∀ c ∈ H, isDigitC c = true) (hHne : H ≠ [])
    (hM : ∀ c ∈ M, isDigitC c = true) (hMne : M ≠ [])
    (hS : ∀ c ∈ S, isDigitC c = true) (hSne : S ≠ [])
    (hMS : ∀ c ∈ MS, isDigitC c = true) :
    parseSRTTime (H ++ ':' :: (M ++ ':' :: (S ++ ',' :: MS)))
      = some ((digitsToNat H : ℚ) * 3600 + (digitsToNat M : ℚ) * 60
          + ((digitsToNat S : ℚ) + (digitsToNat MS : ℚ) / 10 ^ MS.length)) := by
  have hcommaP : ',' ∉ H ++ ':' :: (M ++ ':' :: S) :=
    not_mem_append_cons (by decide) (not_mem_of_all_digits hH ',' (by decide))
      (not_mem_append_cons (by decide) (not_mem_of_all_digits hM ',' (by decide))
        (not_mem_of_all_digits hS ',' (by decide)))
  have hrep : replaceFirst ',' '.' (H ++ ':' :: (M ++ ':' :: (S ++ ',' :: MS)))
      = H ++ ':' :: (M ++ ':' :: (S ++ '.' :: MS)) := by
    rw [show H ++ ':' :: (M ++ ':' :: (S ++ ',' :: MS))
        = (H ++ ':' :: (M ++ ':' :: S)) ++ ',' :: MS from by simp [List.append_assoc],
      replaceFirst_append MS hcommaP]
    simp [List.append_assoc]
  have hnocommaDot : ',' ∉ H ++ ':' :: (M ++ ':' :: (S ++ '.' :: MS)) := by
    refine not_mem_append_cons (by decide) (not_mem_of_all_digits hH ',' (by decide)) ?_
    refine not_mem_append_cons (by decide) (not_mem_of_all_digits hM ',' (by decide)) ?_
    exact not_mem_append_cons (by decide) (not_mem_of_all_digits hS ',' (by decide))
      (not_mem_of_all_digits hMS ',' (by decide))
  have hdot := parseSRTTime_dot hH hHne hM hMne hS hSne hMS
  rw [parseSRTTime] at hdot ⊢
  rw [hrep]
  rw [replaceFirst_of_not_mem hnocommaDot] at hdot
  exact hdot

theorem parseSRTTime_colon_only {H M S : JSStr}
    (hH : ∀ c ∈ H, isDigitC c = true) (hHne : H ≠ [])
    (hM : ∀ c ∈ M, isDigitC c = true) (hMne : M ≠ [])
    (hS : ∀ c ∈ S, isDigitC c = true) (hSne : S ≠ []) :
    parseSRTTime (H ++ ':' :: (M ++ ':' :: S))
      = some ((digitsToNat H : ℚ) * 3600 + (digitsToNat M : ℚ) * 60 + (digitsToNat S : ℚ)) := by
  have hnocomma : ',' ∉ H ++ ':' :: (M ++ ':' :: S) :=
    not_mem_append_cons (by decide) (not_mem_of_all_digits hH ',' (by decide))
      (not_mem_append_cons (by decide) (not_mem_of_all_digits hM ',' (by decide))
        (not_mem_of_all_digits hS ',' (by decide)))
  rw [parseSRTTime]
  simp only [replaceFirst_of_not_mem hnocomma]
  rw [show jsSplit ':' (H ++ ':' :: (M ++ ':' :: S)) = [H, M, S] from
    colon_split_triple (not_mem_of_all_digits hH ':' (by decide))
      (not_mem_of_all_digits hM ':' (by decide)) (not_mem_of_all_digits hS ':' (by decide))]
  simp only [jsAt_len_sub_one, jsAt_len_sub_two, jsAt_len_sub_three,
    orDefaultStr_some_ne hMne, orDefaultStr_some_ne hHne,
    jsParseFloat_digits hS hSne,
    jsParseInt_digits hM hMne, jsParseInt_digits hH hHne, intToNum_some]
  rw [jsMul_some, jsMul_some, jsAdd_some, jsAdd_some]
  simp only [Option.some.injEq]
  push_cast
  ring

/-! ## find? lemmas (active-subtitle lookup) -/

theorem find?_some_decomp {α : Type} {p : α → Bool} {l : List α} {r : α}
    (h : l.find? p = some r) :
    p r = true ∧ ∃ l₁ l₂, l = l₁ ++ r :: l₂ ∧ ∀ x ∈ l₁, p x = false := by
  induction l with
  | nil => simp at h
  | cons a rest ih =>
    cases hp : p a with
    | true =>
      rw [List.find?_cons_of_pos _ hp] at h
      cases h
      exact ⟨hp, [], rest, rfl, by simp⟩
    | false =>
      rw [List.find?_cons_of_neg _ (by simp [hp])] at h
      obtain ⟨hr, l₁, l₂, rfl, hall⟩ := ih h
      refine ⟨hr, a :: l₁, l₂, rfl, ?_⟩
      intro x hx
      rcases List.mem_cons.1 hx with rfl | hx
      · exact hp
      · exact hall x hx

theorem isActiveAt_some_iff {s : Subtitle} {a b : ℚ} (t : ℚ) (ha : s.startSeconds = some a)
    (hb : s.endSeconds = some b) : isActiveAt t s = true ↔ a ≤ t ∧ t ≤ b := by
  simp [isActiveAt, ha, hb, jsLe]

/-! ## join / indexed-map lemmas (SRT serialization) -/

theorem mapWithIdx_map {α β γ : Type} (f : ℕ → α → β) (g : β → γ) (k : ℕ) (l : List α) :
    (mapWithIdx f k l).map g = mapWithIdx (fun i a => g (f i a)) k l := by
  induction l generalizing k with
  | nil => rfl
  | cons a as ih => simp [mapWithIdx, ih]

theorem mapWithIdx_congr {α β : Type} {f g : ℕ → α → β} {l : List α}
    (h : ∀ i a, a ∈ l → f i a = g i a) : ∀ k, mapWithIdx f k l = mapWithIdx g k l := by
  induction l with
  | nil => intro k; rfl
  | cons a as ih =>
    intro k
    rw [mapWithIdx, mapWithIdx, h k a (List.mem_cons_self a as),
      ih fun i x hx => h i x (List.mem_cons_of_mem a hx)]

theorem mapWithIdx_ne_nil {α β : Type} (f : ℕ → α → β) (k : ℕ) {l : List α} (h : l ≠ []) :
    mapWithIdx f k l ≠ [] := by
  cases l with
  | nil => exact absurd rfl h
  | cons a as => simp [mapWithIdx]

theorem joinSep_map_append_nl (L : List JSStr) (h : L ≠ []) :
    joinSep ['\n'] (L.map (fun b => b ++ ['\n'])) = joinSep (str "\n\n") L ++ ['\n'] := by
  induction L with
  | nil => exact absurd rfl h
  | cons x rest ih =>
    cases rest with
    | nil => rfl
    | cons y t =>
      have h2 := ih (by simp)
      rw [show joinSep ['\n'] (List.map (fun b => b ++ ['\n']) (x :: y :: t))
          = (x ++ ['\n']) ++ ['\n'] ++ joinSep ['\n'] (List.map (fun b => b ++ ['\n']) (y :: t))
        from rfl, h2,
        show joinSep (str "\n\n") (x :: y :: t) = x ++ str "\n\n" ++ joinSep (str "\n\n") (y :: t) from
          rfl,
        show str "\n\n" = ['\n', '\n'] from rfl]
      simp [List.append_assoc]

/-! ## Stable-sort lemmas -/

theorem filter_orderedInsert_pos {α : Type} {r : α → α → Prop} [DecidableRel r] (p : α → Bool)
    (a : α) (l : List α) (hpa : p a = true) (hall : ∀ b, p b = true → r a b) :
    (l.orderedInsert r a).filter p = a :: l.filter p := by
  induction l with
  | nil => simp [List.orderedInsert, hpa]
  | cons b t ih =>
    rw [List.orderedInsert]
    by_cases hr : r a b
    · rw [if_pos hr]
      simp [List.filter_cons, hpa]
    · rw [if_neg hr]
      have hpb : p b = false := by
        cases hpb : p b
        · rfl
        · exact absurd (hall b hpb) hr
      simp [List.filter_cons, hpb, ih]

theorem filter_orderedInsert_neg {α : Type} {r : α → α → Prop} [DecidableRel r] (p : α → Bool)
    (a : α) (l : List α) (hpa : p a = false) :
    (l.orderedInsert r a).filter p = l.filter p := by
  induction l with
  | nil => simp [List.orderedInsert, hpa]
  | cons b t ih =>
    rw [List.orderedInsert]
    by_cases hr : r a b
    · rw [if_pos hr]
      simp [List.filter_cons, hpa]
    · rw [if_neg hr]
      simp [List.filter_cons, ih]

theorem filter_insertionSort {α : Type} {r : α → α → Prop} [DecidableRel r] (p : α → Bool)
    (l : List α) (hcomp : ∀ a b, p a = true → p b = true → r a b) :
    (l.insertionSort r).filter p = l.filter p := by
  induction l with
  | nil => rfl
  | cons a t ih =>
    rw [List.insertionSort]
    cases hpa : p a with
    | true =>
      rw [filter_orderedInsert_pos p a _ hpa fun b hb => hcomp a b hpa hb, ih]
      simp [List.filter_cons, hpa]
    | false =>
      rw [filter_orderedInsert_neg p a _ hpa, ih]
      simp [List.filter_cons, hpa]

/-! ## Floor arithmetic and formatTime -/

theorem floor_div_int_q (x : ℚ) (n : ℤ) (hn : 0 < n) : ⌊x / (n : ℚ)⌋ = ⌊x⌋ / n := by
  have hnQ : (0 : ℚ) < (n : ℚ) := by exact_mod_cast hn
  apply le_antisymm
  · rw [Int.le_ediv_iff_mul_le hn, Int.le_floor]
    push_cast
    calc (⌊x / (n : ℚ)⌋ : ℚ) * (n : ℚ)
        ≤ (x / (n : ℚ)) * (n : ℚ) :=
          mul_le_mul_of_nonneg_right (Int.floor_le _) (le_of_lt hnQ)
      _ = x := div_mul_cancel₀ x (ne_of_gt hnQ)
  · rw [Int.le_floor, le_div_iff₀ hnQ]
    calc ((⌊x⌋ / n : ℤ) : ℚ) * (n : ℚ) = ((⌊x⌋ / n * n : ℤ) : ℚ) := by push_cast; ring
      _ ≤ (⌊x⌋ : ℚ) := by exact_mod_cast Int.ediv_mul_le ⌊x⌋ (ne_of_gt hn)
      _ ≤ x := Int.floor_le x

theorem truncQ_nonneg {q : ℚ} (h : 0 ≤ q) : truncQ q = ⌊q⌋ := if_pos h

theorem floor_x_div_3600 (x : ℚ) : ⌊x / 3600⌋ = ⌊x⌋ / 3600 := by
  rw [show (3600 : ℚ) = ((3600 : ℤ) : ℚ) from by norm_num, floor_div_int_q x 3600 (by norm_num)]

theorem floor_x_div_60 (x : ℚ) : ⌊x / 60⌋ = ⌊x⌋ / 60 := by
  rw [show (60 : ℚ) = ((60 : ℤ) : ℚ) from by norm_num, floor_div_int_q x 60 (by norm_num)]

theorem jsMod_60 (x : ℚ) (h0 : 0 ≤ x) :
    jsMod x 60 = x - ((60 * (⌊x⌋ / 60) : ℤ) : ℚ) := by
  rw [jsMod, truncQ_nonneg (div_nonneg h0 (by norm_num)), floor_x_div_60]
  push_cast
  ring

theorem jsMod_3600 (x : ℚ) (h0 : 0 ≤ x) :
    jsMod x 3600 = x - ((3600 * (⌊x⌋ / 3600) : ℤ) : ℚ) := by
  rw [jsMod, truncQ_nonneg (div_nonneg h0 (by norm_num)), floor_x_div_3600]
  push_cast
  ring

theorem floor_jsMod_60 (x : ℚ) (h0 : 0 ≤ x) :
    ⌊jsMod x 60⌋ = ⌊x⌋ - 60 * (⌊x⌋ / 60) := by
  rw [jsMod_60 x h0, Int.floor_sub_int]

theorem floor_jsMod_3600_div_60 (x : ℚ) (h0 : 0 ≤ x) :
    ⌊jsMod x 3600 / 60⌋ = (⌊x⌋ - 3600 * (⌊x⌋ / 3600)) / 60 := by
  rw [jsMod_3600 x h0, show (60 : ℚ) = ((60 : ℤ) : ℚ) from by norm_num,
    floor_div_int_q _ 60 (by norm_num), Int.floor_sub_int]

theorem intRepr_nonneg {v : ℤ} (h : 0 ≤ v) : intRepr v = natRepr v.toNat :=
  if_neg (not_lt.2 h)

theorem formatTime_eq (x : ℚ) (h0 : 0 ≤ x) :
    formatTime x = padStart 2 '0' (natRepr (⌊x⌋ / 3600).toNat)
      ++ ':' :: (padStart 2 '0' (natRepr ((⌊x⌋ - 3600 * (⌊x⌋ / 3600)) / 60).toNat)
      ++ ':' :: padStart 2 '0' (natRepr (⌊x⌋ - 60 * (⌊x⌋ / 60)).toNat)) := by
  have hN : 0 ≤ ⌊x⌋ := Int.floor_nonneg.2 h0
  have h1 : (0 : ℤ) ≤ ⌊x⌋ / 3600 := by omega
  have h2 : (0 : ℤ) ≤ (⌊x⌋ - 3600 * (⌊x⌋ / 3600)) / 60 := by omega
  have h3 : (0 : ℤ) ≤ ⌊x⌋ - 60 * (⌊x⌋ / 60) := by omega
  rw [formatTime, floor_x_div_3600, floor_jsMod_3600_div_60 x h0, floor_jsMod_60 x h0]
  simp only [List.map_cons, List.map_nil]
  rw [intRepr_nonneg h1, intRepr_nonneg h2, intRepr_nonneg h3]
  simp [joinSep, List.append_assoc]

theorem padStart_natRepr_digits (v : ℕ) : ∀ c ∈ padStart 2 '0' (natRepr v), isDigitC c = true :=
  allDigits_iff.1 (allDigits_padStart (allDigits_natRepr v) 2)

theorem digitsToNat_padStart_natRepr (v : ℕ) : digitsToNat (padStart 2 '0' (natRepr v)) = v := by
  rw [digitsToNat_padStart, digitsToNat_natRepr]

theorem comma_not_mem_formatTime (x : ℚ) (h0 : 0 ≤ x) : ',' ∉ formatTime x := by
  rw [formatTime_eq x h0]
  refine not_mem_append_cons (by decide)
    (not_mem_of_all_digits (padStart_natRepr_digits _) ',' (by decide)) ?_
  exact not_mem_append_cons (by decide)
    (not_mem_of_all_digits (padStart_natRepr_digits _) ',' (by decide))
    (not_mem_of_all_digits (padStart_natRepr_digits _) ',' (by decide))

theorem parseSRTTime_formatTime (x : ℚ) (h0 : 0 ≤ x) :
    parseSRTTime (formatTime x) = some ((⌊x⌋ : ℚ)) := by
  have hN : 0 ≤ ⌊x⌋ := Int.floor_nonneg.2 h0
  rw [formatTime_eq x h0,
    parseSRTTime_colon_only (padStart_natRepr_digits _) (padStart_two_ne_nil _)
      (padStart_natRepr_digits _) (padStart_two_ne_nil _)
      (padStart_natRepr_digits _) (padStart_two_ne_nil _)]
  rw [digitsToNat_padStart_natRepr, digitsToNat_padStart_natRepr, digitsToNat_padStart_natRepr]
  have harith : (⌊x⌋ / 3600).toNat * 3600 + ((⌊x⌋ - 3600 * (⌊x⌋ / 3600)) / 60).toNat * 60
      + (⌊x⌋ - 60 * (⌊x⌋ / 60)).toNat = ⌊x⌋.toNat := by omega
  rw [show ((⌊x⌋ : ℚ)) = ((⌊x⌋.toNat : ℕ) : ℚ) from by
      exact_mod_cast (Int.toNat_of_nonneg hN).symm, ← harith]
  push_cast
  ring_nf

theorem parseTimeToSeconds_formatTime (x : ℚ) (h0 : 0 ≤ x) :
    parseTimeToSeconds (formatTime x) = none :=
  parseTimeToSeconds_no_comma (comma_not_mem_formatTime x h0)

/-! ## Round-trip machinery (serialize → lines → blocks → parseBlock) -/

theorem splitNl_joinSep (L : List JSStr) (h : L ≠ []) :
    splitOnElem '\n' (joinSep ['\n'] L) = (L.map (splitOnElem '\n')).flatten := by
  induction L with
  | nil => exact absurd rfl h
  | cons x rest ih =>
    cases rest with
    | nil => simp [joinSep]
    | cons y t =>
      rw [show joinSep ['\n'] (x :: y :: t) = x ++ ['\n'] ++ joinSep ['\n'] (y :: t) from rfl,
        show x ++ ['\n'] ++ joinSep ['\n'] (y :: t) = x ++ '\n' :: joinSep ['\n'] (y :: t) from by
          simp,
        splitOnElem_append_general, ih (by simp)]
      simp

theorem splitNl_srtBlock (i : ℕ) (sub : Subtitle)
    (hst : '\n' ∉ sub.startTime) (hen : '\n' ∉ sub.endTime)
    (ho : '\n' ∉ sub.originalText) (htr : '\n' ∉ sub.translatedText) :
    splitOnElem '\n' (srtBlock i sub .bilingual)
      = [natRepr (i + 1), sub.startTime ++ str " --> " ++ sub.endTime,
         sub.originalText, sub.translatedText, []] := by
  have hnum : '\n' ∉ natRepr (i + 1) :=
    not_mem_of_all_digits (allDigits_iff.1 (allDigits_natRepr _)) '\n' (by decide)
  have hT : '\n' ∉ sub.startTime ++ str " --> " ++ sub.endTime := by
    intro hm
    rcases List.mem_append.1 hm with hm | hm
    · rcases List.mem_append.1 hm with hm | hm
      · exact hst hm
      · exact absurd hm (by decide)
    · exact hen hm
  rw [show srtBlock i sub .bilingual
      = natRepr (i + 1) ++ '\n' :: ((sub.startTime ++ str " --> " ++ sub.endTime)
        ++ '\n' :: (sub.originalText ++ '\n' :: (sub.translatedText ++ '\n' :: []))) from by
    simp [srtBlock, srtText, List.append_assoc]]
  rw [splitOnElem_append _ hnum, splitOnElem_append _ hT, splitOnElem_append _ ho,
    splitOnElem_append _ htr]
  rfl

theorem splitEmpty_groups (GS : List (List JSStr)) (h : ∀ G ∈ GS, ([] : JSStr) ∉ G) :
    splitOnElem ([] : JSStr) ((GS.map (fun G => G ++ [[]])).flatten) = GS ++ [[]] := by
  induction GS with
  | nil => rfl
  | cons G rest ih =>
    rw [List.map_cons, List.flatten_cons,
      show (G ++ [[]]) ++ (List.map (fun G => G ++ [[]]) rest).flatten
        = G ++ ([] :: (List.map (fun G => G ++ [[]]) rest).flatten) from by simp,
      splitOnElem_append _ (h G (List.mem_cons_self G rest)),
      ih fun G2 hG2 => h G2 (List.mem_cons_of_mem G hG2)]
    rfl

theorem isPrefixOf_append_self (l r : JSStr) : l.isPrefixOf (l ++ r) = true := by
  induction l with
  | nil => simp [List.isPrefixOf]
  | cons c cs ih => simp [List.isPrefixOf, ih]

theorem splitOnSeqF_not_mem (c0 : Char) (ctail : JSStr) {l : JSStr} :
    ∀ {fuel : ℕ}, l.length ≤ fuel → c0 ∉ l → splitOnSeqF c0 ctail fuel l = [l] := by
  induction l with
  | nil =>
    intro fuel _ _
    cases fuel <;> simp [splitOnSeqF]
  | cons c rest ih =>
    intro fuel hf h
    match fuel, hf with
    | fuel + 1, hf =>
      rw [splitOnSeqF, if_neg (by rintro ⟨rfl, -⟩; exact h (List.mem_cons_self c rest)),
        ih (by simpa using Nat.le_of_succ_le_succ (by simpa using hf))
          fun hm => h (List.mem_cons_of_mem c hm)]

theorem splitOnSeqF_boundary (c0 : Char) (ctail : JSStr) {st en : JSStr} :
    ∀ {fuel : ℕ}, (st ++ c0 :: (ctail ++ en)).length ≤ fuel → c0 ∉ st → c0 ∉ en →
      splitOnSeqF c0 ctail fuel (st ++ c0 :: (ctail ++ en)) = [st, en] := by
  induction st with
  | nil =>
    intro fuel hf hst hen
    match fuel, hf with
    | fuel + 1, hf =>
      rw [List.nil_append, splitOnSeqF,
        if_pos ⟨rfl, isPrefixOf_append_self ctail en⟩,
        List.drop_left,
        splitOnSeqF_not_mem c0 ctail (by simp at hf ⊢; omega) hen]
  | cons c st' ih =>
    intro fuel hf hst hen
    match fuel, hf with
    | fuel + 1, hf =>
      rw [List.cons_append, splitOnSeqF,
        if_neg (by rintro ⟨rfl, -⟩; exact hst (List.mem_cons_self c st')),
        ih (by simp at hf ⊢; omega) (fun hm => hst (List.mem_cons_of_mem c hm)) hen]

theorem splitOnSeq_arrow {st en : JSStr} (hst : ' ' ∉ st) (hen : ' ' ∉ en) :
    splitOnSeq arrowSep (st ++ str " --> " ++ en) = [st, en] := by
  rw [show (arrowSep : JSStr) = ' ' :: ['-', '-', '>', ' '] from by decide,
    show st ++ str " --> " ++ en = st ++ ' ' :: (['-', '-', '>', ' '] ++ en) from by
      rw [show str " --> " = ' ' :: ['-', '-', '>', ' '] from by decide]
      simp]
  simp only [splitOnSeq]
  exact splitOnSeqF_boundary ' ' ['-', '-', '>', ' '] (le_refl _) hst hen

theorem parseBlock_quad (i : ℕ) (sub : Subtitle)
    (hstS : ' ' ∉ sub.startTime) (henS : ' ' ∉ sub.endTime) :
    parseBlock [natRepr (i + 1), sub.startTime ++ str " --> " ++ sub.endTime,
      sub.originalText, sub.translatedText]
      = some { index := (digitsToNat (natRepr (i + 1)) : ℤ)
               startTime := sub.startTime
               endTime := sub.endTime
               originalText := sub.originalText
               translatedText := sub.translatedText
               startSeconds := parseTimeToSeconds sub.startTime
               endSeconds := parseTimeToSeconds sub.endTime } := by
  rw [parseBlock]
  rw [if_pos (by simp [allDigits_natRepr, List.isEmpty_iff, natRepr_ne_nil])]
  rw [splitOnSeq_arrow hstS henS]
  rfl

theorem filterMap_parseBlock_quads (subs : List Subtitle)
    (h : ∀ sub ∈ subs, ' ' ∉ sub.startTime ∧ ' ' ∉ sub.endTime) :
    ∀ k, (List.filterMap parseBlock (mapWithIdx (fun i sub =>
        [natRepr (i + 1), sub.startTime ++ str " --> " ++ sub.endTime,
         sub.originalText, sub.translatedText]) k subs)).map textFields
      = subs.map textFields := by
  induction subs with
  | nil => intro k; rfl
  | cons sub rest ih =>
    intro k
    rw [mapWithIdx, List.filterMap_cons,
      parseBlock_quad k sub (h sub (List.mem_cons_self sub rest)).1
        (h sub (List.mem_cons_self sub rest)).2]
    simp only [List.map_cons]
    rw [ih (fun s hs => h s (List.mem_cons_of_mem sub hs)) (k + 1)]
    rfl

theorem splitEmpty_mapWithIdx (subs : List Subtitle) (f : ℕ → Subtitle → List JSStr)
    (h : ∀ i sub, sub ∈ subs → ([] : JSStr) ∉ f i sub) :
    ∀ k, splitOnElem ([] : JSStr) ((mapWithIdx (fun i sub => f i sub ++ [[]]) k subs).flatten)
      = mapWithIdx f k subs ++ [[]] := by
  induction subs with
  | nil => intro k; rfl
  | cons s rest ih =>
    intro k
    rw [mapWithIdx, List.flatten_cons,
      show (f k s ++ [[]]) ++ (mapWithIdx (fun i sub => f i sub ++ [[]]) (k + 1) rest).flatten
        = f k s ++ ([] :: (mapWithIdx (fun i sub => f i sub ++ [[]]) (k + 1) rest).flatten) from by
          simp,
      splitOnElem_append _ (h k s (List.mem_cons_self s rest)),
      ih (fun i x hx => h i x (List.mem_cons_of_mem s hx)) (k + 1)]
    rfl

theorem deserialize_generateSRT_bilingual (subs : List Subtitle)
    (h : ∀ sub ∈ subs,
      ('\n' ∉ sub.startTime ∧ ' ' ∉ sub.startTime) ∧
      ('\n' ∉ sub.endTime ∧ ' ' ∉ sub.endTime) ∧
      (sub.originalText ≠ [] ∧ '\n' ∉ sub.originalText) ∧
      (sub.translatedText ≠ [] ∧ '\n' ∉ sub.translatedText)) :
    (deserialize (generateSRT subs SRTMode.bilingual)).map textFields
      = subs.map textFields := by
  cases subs with
  | nil => rfl
  | cons s0 rest =>
    have hne : s0 :: rest ≠ [] := by simp
    rw [deserialize, generateSRT, jsSplit,
      splitNl_joinSep _ (mapWithIdx_ne_nil _ 0 hne), mapWithIdx_map]
    rw [show mapWithIdx (fun i sub => splitOnElem '\n' (srtBlock i sub SRTMode.bilingual)) 0
          (s0 :: rest)
        = mapWithIdx (fun i sub =>
            [natRepr (i + 1), sub.startTime ++ str " --> " ++ sub.endTime,
             sub.originalText, sub.translatedText] ++ [[]]) 0 (s0 :: rest) from
      mapWithIdx_congr (fun i sub hsub => by
        obtain ⟨⟨h1, h2⟩, ⟨h3, h4⟩, ⟨h5, h6⟩, ⟨h7, h8⟩⟩ := h sub hsub
        rw [splitNl_srtBlock i sub h1 h3 h6 h8]
        rfl) 0]
    rw [splitEmpty_mapWithIdx (s0 :: rest)
      (fun i sub => [natRepr (i + 1), sub.startTime ++ str " --> " ++ sub.endTime,
        sub.originalText, sub.translatedText])
      (fun i sub hsub => by
        obtain ⟨⟨h1, h2⟩, ⟨h3, h4⟩, ⟨h5, h6⟩, ⟨h7, h8⟩⟩ := h sub hsub
        intro hm
        rcases List.mem_cons.1 hm with hm | hm
        · exact natRepr_ne_nil _ hm.symm
        rcases List.mem_cons.1 hm with hm | hm
        · rw [List.append_assoc] at hm
          rcases List.append_eq_nil.1 hm.symm with ⟨-, hm2⟩
          rcases List.append_eq_nil.1 hm2 with ⟨hm3, -⟩
          exact absurd hm3 (by decide)
        rcases List.mem_cons.1 hm with hm | hm
        · exact h5 hm.symm
        rcases List.mem_cons.1 hm with hm | hm
        · exact h7 hm.symm
        · exact absurd hm (List.not_mem_nil _)) 0]
    rw [List.filterMap_append,
      show List.filterMap parseBlock [([] : List JSStr)] = [] from rfl, List.append_nil]
    exact filterMap_parseBlock_quads _ (fun s hs => ⟨(h s hs).1.2, (h s hs).2.1.2⟩) 0

theorem jsNumLeB_refl (x : JsNum) : jsNumLeB x x = true := by
  cases x <;> simp [jsNumLeB]

/-! ## Claims -/

/-- **C1.** For every subtitle list and every time `t`, `findActive` returns the
first entry whose interval contains `t` with inclusive boundaries (an entry is
active exactly when `startSeconds ≤ t ≤ endSeconds`), and returns none when no
entry's interval contains `t`, including on the empty list; for a single
subtitle spanning `[2.0, 4.0]`, lookup at 1.999 and 4.001 yields none while
lookup at exactly 2.0 and exactly 4.0 yields that subtitle. -/
theorem C1_findActive_first_inclusive (subs : List Subtitle) (t : ℚ) :
    (findActive subs t = none ↔ ∀ s ∈ subs, isActiveAt t s = false) ∧
    (∀ r, findActive subs t = some r → isActiveAt t r = true ∧
      ∃ l₁ l₂, subs = l₁ ++ r :: l₂ ∧ ∀ s ∈ l₁, isActiveAt t s = false) ∧
    (∀ (s : Subtitle) (a b : ℚ), s.startSeconds = some a → s.endSeconds = some b →
      (isActiveAt t s = true ↔ a ≤ t ∧ t ≤ b)) ∧
    findActive ([] : List Subtitle) t = none ∧
    findActive [sub24] (1999 / 1000) = none ∧
    findActive [sub24] 2 = some sub24 ∧
    findActive [sub24] 4 = some sub24 ∧
    findActive [sub24] (4001 / 1000) = none := by
  refine ⟨?_, ?_, ?_, rfl, ?_, ?_, ?_, ?_⟩
  · simp only [findActive, List.find?_eq_none, Bool.not_eq_true]
  · intro r h
    exact find?_some_decomp h
  · intro s a b ha hb
    exact isActiveAt_some_iff t ha hb
  · have h1 : ¬ ((2 : ℚ) ≤ 1999 / 1000) := by norm_num
    simp [findActive, List.find?_cons, isActiveAt, sub24, jsLe, h1]
  · have h1 : (2 : ℚ) ≤ 2 := le_refl 2
    have h2 : (2 : ℚ) ≤ 4 := by norm_num
    simp [findActive, List.find?_cons, isActiveAt, sub24, jsLe, h1, h2]
  · have h1 : (2 : ℚ) ≤ 4 := by norm_num
    have h2 : (4 : ℚ) ≤ 4 := le_refl 4
    simp [findActive, List.find?_cons, isActiveAt, sub24, jsLe, h1, h2]
  · have h1 : ¬ ((4001 / 1000 : ℚ) ≤ 4) := by norm_num
    simp [findActive, List.find?_cons, isActiveAt, sub24, jsLe, h1]

/-- Witness for C1 at the `[2.0, 4.0]` fixture and `t = 2`: the returned
entry is active. -/
theorem C1_findActive_first_inclusive_witness :
    isActiveAt 2 sub24 = true ∧ findActive [sub24] 2 = some sub24 := by
  have h := C1_findActive_first_inclusive [sub24] 2
  exact ⟨(h.2.1 sub24 h.2.2.2.2.2.1).1, h.2.2.2.2.2.1⟩

/-- **C2.** For every subtitle list sorted ascending by `startSeconds` and every
time `t`, the entry `findActive` returns has the least `startSeconds` among all
entries active at `t` (the earliest-starting overlapping segment wins the
tie-break); in particular with `A = [0, 5]` before `B = [3, 8]`, lookup at
`t = 4.0` returns `A`. -/
theorem C2_overlap_tiebreak (subs : List Subtitle) (t : ℚ)
    (hsorted : subs.Pairwise subLe) :
    (∀ r, findActive subs t = some r → ∀ s ∈ subs, isActiveAt t s = true →
      jsNumLeB r.startSeconds s.startSeconds = true) ∧
    findActive [subA0, subB3] 4 = some subA0 := by
  constructor
  · intro r hr s hs hactive
    obtain ⟨hra, l₁, l₂, rfl, hinactive⟩ := find?_some_decomp hr
    rcases List.mem_append.1 hs with hs | hs
    · rw [hinactive s hs] at hactive
      exact absurd hactive (by simp)
    · rcases List.mem_cons.1 hs with rfl | hs
      · exact jsNumLeB_refl _
      · exact (List.pairwise_cons.1 (List.pairwise_append.1 hsorted).2.1).1 s hs
  · have h1 : (0 : ℚ) ≤ 4 := by norm_num
    have h2 : (4 : ℚ) ≤ 5 := by norm_num
    simp [findActive, List.find?_cons, isActiveAt, subA0, jsLe, h1, h2]

/-- Witness for C2 at the concrete overlap fixture: `findActive` returns `A`
and `A` starts no later than the also-active `B`. -/
theorem C2_overlap_tiebreak_witness :
    jsNumLeB subA0.startSeconds subB3.startSeconds = true := by
  have h03 : (0 : ℚ) ≤ 3 := by norm_num
  have hp : List.Pairwise subLe [subA0, subB3] := by
    simp [List.pairwise_cons, subLe, subA0, subB3, jsNumLeB, h03]
  have h := C2_overlap_tiebreak [subA0, subB3] 4 hp
  refine h.1 subA0 h.2 subB3 (by simp) ?_
  have h1 : (3 : ℚ) ≤ 4 := by norm_num
  have h2 : (4 : ℚ) ≤ 8 := by norm_num
  simp [isActiveAt, subB3, jsLe, h1, h2]

theorem mapWithIdx_srtBlock_setIndex (mode : SRTMode) (g : ℕ → ℤ) (subs : List Subtitle) :
    ∀ k, mapWithIdx (fun i sub => srtBlock i sub mode) k
        (mapWithIdx (fun i s => setIndex (g i) s) k subs)
      = mapWithIdx (fun i sub => srtBlock i sub mode) k subs := by
  induction subs with
  | nil => intro k; rfl
  | cons s rest ih =>
    intro k
    simp only [mapWithIdx]
    rw [ih (k + 1)]
    cases mode <;> simp [setIndex, srtBlock, srtText]

/-- **C3.** For every subtitle list and every mode, `generateSRT` emits one
block per entry in array order (sequential number, `<start> --> <end>` line,
mode-selected text), blocks joined with exactly one blank line; the block
numbers are the positions 1, 2, 3, … independent of each entry's stored
`index` field, and the empty list serializes to the empty string. -/
theorem C3_generateSRT_blocks (subs : List Subtitle) (mode : SRTMode) :
    (generateSRT subs mode = if subs = [] then [] else
      joinSep (str "\n\n") (mapWithIdx (fun i sub =>
        natRepr (i + 1) ++ '\n' :: (sub.startTime ++ str " --> " ++ sub.endTime)
          ++ '\n' :: srtText sub mode) 0 subs) ++ ['\n']) ∧
    (∀ g : ℕ → ℤ, generateSRT (mapWithIdx (fun i s => setIndex (g i) s) 0 subs) mode
      = generateSRT subs mode) ∧
    generateSRT ([] : List Subtitle) mode = [] ∧
    generateSRT [subI5, subI2] SRTMode.bilingual
      = str "1\n00:00:01,000 --> 00:00:02,500\nHi\n嗨\n\n2\n00:00:03,000 --> 00:00:04,000\nYo\n哟\n" := by
  refine ⟨?_, ?_, rfl, by decide⟩
  · cases subs with
    | nil => rfl
    | cons s0 rest =>
      rw [if_neg (by simp), generateSRT]
      rw [show mapWithIdx (fun i sub => srtBlock i sub mode) 0 (s0 :: rest)
          = mapWithIdx (fun i sub =>
              (natRepr (i + 1) ++ '\n' :: (sub.startTime ++ str " --> " ++ sub.endTime)
                ++ '\n' :: srtText sub mode) ++ ['\n']) 0 (s0 :: rest) from
        mapWithIdx_congr (fun i sub _ => by simp [srtBlock, List.append_assoc]) 0]
      rw [show mapWithIdx (fun i sub =>
            (natRepr (i + 1) ++ '\n' :: (sub.startTime ++ str " --> " ++ sub.endTime)
              ++ '\n' :: srtText sub mode) ++ ['\n']) 0 (s0 :: rest)
          = (mapWithIdx (fun i sub =>
              natRepr (i + 1) ++ '\n' :: (sub.startTime ++ str " --> " ++ sub.endTime)
                ++ '\n' :: srtText sub mode) 0 (s0 :: rest)).map (fun b => b ++ ['\n']) from
        (mapWithIdx_map _ (fun b => b ++ ['\n']) 0 _).symm]
      exact joinSep_map_append_nl _ (mapWithIdx_ne_nil _ 0 (by simp))
  · intro g
    rw [generateSRT, generateSRT, mapWithIdx_srtBlock_setIndex mode g subs 0]

/-- **C4 (counterexample).** The claim says `parseTimeToSeconds` accepts `.` in
place of `,` as the fractional separator; in fact splitting on `,` leaves the
millisecond component `undefined` for a dot-separated timestamp, so
`parseTimeToSeconds "00:00:01.500"` is NaN (`none`) rather than the value
`1.5` the claim requires, while the comma form parses to `1.5`. -/
theorem C4_dot_counterexample :
    parseTimeToSeconds (str "00:00:01.500") = none ∧
    parseTimeToSeconds (str "00:00:01,500") = some (3 / 2) := by
  constructor
  · decide
  · rw [show str "00:00:01,500"
        = str "00" ++ ':' :: (str "00" ++ ':' :: (str "01" ++ ',' :: str "500")) from by decide,
      parseTimeToSeconds_canonical (by decide) (by decide) (by decide) (by decide) (by decide)
        (by decide) (by decide) (by decide)]
    norm_num [show digitsToNat (str "00") = 0 from by decide,
      show digitsToNat (str "01") = 1 from by decide,
      show digitsToNat (str "500") = 500 from by decide]

/-- **C4 (amended).** `parseTimeToSeconds` accepts only the comma separator,
for which it returns hours*3600 + minutes*60 + seconds + milliseconds/1000;
given `.` in place of `,` it yields NaN (`none`).  The companion parser
`parseSRTTime` in gemini.ts accepts both separators with that same value. -/
theorem C4_amended_comma_only (H M S MS : JSStr)
    (hH : ∀ c ∈ H, isDigitC c = true) (hHne : H ≠ [])
    (hM : ∀ c ∈ M, isDigitC c = true) (hMne : M ≠ [])
    (hS : ∀ c ∈ S, isDigitC c = true) (hSne : S ≠ [])
    (hMS : ∀ c ∈ MS, isDigitC c = true) (hMSne : MS ≠ []) (hMS3 : MS.length = 3) :
    parseTimeToSeconds (H ++ ':' :: (M ++ ':' :: (S ++ ',' :: MS)))
      = some ((digitsToNat H : ℚ) * 3600 + (digitsToNat M : ℚ) * 60 + (digitsToNat S : ℚ)
          + (digitsToNat MS : ℚ) / 1000) ∧
    parseTimeToSeconds (H ++ ':' :: (M ++ ':' :: (S ++ '.' :: MS))) = none ∧
    parseSRTTime (H ++ ':' :: (M ++ ':' :: (S ++ '.' :: MS)))
      = some ((digitsToNat H : ℚ) * 3600 + (digitsToNat M : ℚ) * 60 + (digitsToNat S : ℚ)
          + (digitsToNat MS : ℚ) / 1000) ∧
    parseSRTTime (H ++ ':' :: (M ++ ':' :: (S ++ ',' :: MS)))
      = some ((digitsToNat H : ℚ) * 3600 + (digitsToNat M : ℚ) * 60 + (digitsToNat S : ℚ)
          + (digitsToNat MS : ℚ) / 1000) := by
  refine ⟨parseTimeToSeconds_canonical hH hHne hM hMne hS hSne hMS hMSne, ?_, ?_, ?_⟩
  · apply parseTimeToSeconds_no_comma
    refine not_mem_append_cons (by decide) (not_mem_of_all_digits hH ',' (by decide)) ?_
    refine not_mem_append_cons (by decide) (not_mem_of_all_digits hM ',' (by decide)) ?_
    exact not_mem_append_cons (by decide) (not_mem_of_all_digits hS ',' (by decide))
      (not_mem_of_all_digits hMS ',' (by decide))
  · rw [parseSRTTime_dot hH hHne hM hMne hS hSne hMS, hMS3]
    simp only [Option.some.injEq]
    norm_num
    ring
  · rw [parseSRTTime_comma hH hHne hM hMne hS hSne hMS, hMS3]
    simp only [Option.some.injEq]
    norm_num
    ring

/-- Witness for C4 (amended) at `00:00:01.500`: the dot form yields NaN. -/
theorem C4_amended_comma_only_witness :
    parseTimeToSeconds (str "00" ++ ':' :: (str "00" ++ ':' :: (str "01" ++ '.' :: str "500")))
      = none :=
  (C4_amended_comma_only (str "00") (str "00") (str "01") (str "500") (by decide) (by decide)
    (by decide) (by decide) (by decide) (by decide) (by decide) (by decide) (by decide)).2.1

theorem jsAdd_eq_none_iff (x y : JsNum) : jsAdd x y = none ↔ x = none ∨ y = none := by
  cases x <;> cases y <;> simp [jsAdd]

theorem jsMul_eq_none_iff (x y : JsNum) : jsMul x y = none ↔ x = none ∨ y = none := by
  cases x <;> cases y <;> simp [jsMul]

theorem jsDiv_some1000_eq_none_iff (x : JsNum) : jsDiv x (some 1000) = none ↔ x = none := by
  cases x with
  | none => simp [jsDiv]
  | some a =>
    rw [jsDiv, if_neg (by norm_num)]
    simp

theorem msMatch_eq_bind (parts : List JSStr) :
    (match parts with
     | _ :: msStr :: _ => jsNumber msStr
     | _ => none) = ((parts.drop 1).head?).bind jsNumber := by
  match parts with
  | [] => rfl
  | [a] => rfl
  | a :: b :: t => rfl

/-- **C5 (counterexample).** The claim says any non-numeric component after
splitting on `:` and `,` makes `parseTimeToSeconds` fail with an error; in
fact `"1:2:3:abc,500"` has the non-numeric component `"abc"` among its split
components yet parses to the numeric value `3723.5` — destructuring ignores
components beyond the first three `:`-parts, and the code never throws. -/
theorem C5_ignored_component_counterexample :
    (str "abc") ∈ ((jsSplit ',' (str "1:2:3:abc,500")).map (jsSplit ':')).flatten ∧
    jsNumber (str "abc") = none ∧
    parseTimeToSeconds (str "1:2:3:abc,500") = some (7447 / 2) := by
  refine ⟨by decide, by decide, ?_⟩
  have e1 : jsSplit ',' (str "1:2:3:abc,500") = [str "1:2:3:abc", str "500"] := by decide
  have e2 : jsSplit ':' (str "1:2:3:abc") = [str "1", str "2", str "3", str "abc"] := by decide
  have n1 : jsNumber (str "1") = some ((digitsToNat (str "1") : ℕ) : ℚ) :=
    jsNumber_digits (by decide) (by decide)
  have n2 : jsNumber (str "2") = some ((digitsToNat (str "2") : ℕ) : ℚ) :=
    jsNumber_digits (by decide) (by decide)
  have n3 : jsNumber (str "3") = some ((digitsToNat (str "3") : ℕ) : ℚ) :=
    jsNumber_digits (by decide) (by decide)
  have n500 : jsNumber (str "500") = some ((digitsToNat (str "500") : ℕ) : ℚ) :=
    jsNumber_digits (by decide) (by decide)
  rw [show digitsToNat (str "1") = 1 from by decide] at n1
  rw [show digitsToNat (str "2") = 2 from by decide] at n2
  rw [show digitsToNat (str "3") = 3 from by decide] at n3
  rw [show digitsToNat (str "500") = 500 from by decide] at n500
  simp only [parseTimeToSeconds, e1, e2, List.getD, List.get?_cons_zero, List.get?_cons_succ,
    Option.getD_some, List.map_cons, List.map_nil, n1, n2, n3, n500]
  rw [jsMul_some, jsMul_some, jsAdd_some, jsAdd_some, jsDiv_some_1000, jsAdd_some]
  norm_num

/-- **C5 (amended).** `parseTimeToSeconds` never raises an error: it evaluates
to NaN (`none`) exactly when one of the components it actually uses — the
first three `:`-components of the part before the first `,`, or the part
between the first and second `,` — is missing or non-numeric; split
components beyond those are ignored. -/
theorem C5_amended_nan_not_error (timeStr : JSStr) :
    parseTimeToSeconds timeStr = none ↔
      ((jsSplit ':' ((jsSplit ',' timeStr).getD 0 [])).map jsNumber).getD 0 none = none ∨
      ((jsSplit ':' ((jsSplit ',' timeStr).getD 0 [])).map jsNumber).getD 1 none = none ∨
      ((jsSplit ':' ((jsSplit ',' timeStr).getD 0 [])).map jsNumber).getD 2 none = none ∨
      (((jsSplit ',' timeStr).drop 1).head?).bind jsNumber = none := by
  simp only [parseTimeToSeconds, msMatch_eq_bind, jsAdd_eq_none_iff, jsMul_eq_none_iff,
    jsDiv_some1000_eq_none_iff]
  simp only [Option.some_ne_none, or_false]
  tauto

/-- **C6.** `processVideoWithAI` computes `startSeconds`/`endSeconds` for each
raw segment via `parseSRTTime` and returns the segments sorted ascending by
`startSeconds` with a stable sort: the result is sorted, is a permutation of
the converted segments, preserves the relative order of segments with any
given `startSeconds` value, and ingesting starts [10 s, 5 s, 10 s] yields the
order [5 s, first 10 s, second 10 s]. -/
theorem C6_ingest_sorted_stable (rawSubs : List RawSegment) :
    (processVideoWithAI rawSubs).Pairwise subLe ∧
    (processVideoWithAI rawSubs).Perm (rawSubs.map rawToSubtitle) ∧
    (∀ q : ℚ, (processVideoWithAI rawSubs).filter (fun s => s.startSeconds = some q)
      = (rawSubs.map rawToSubtitle).filter (fun s => s.startSeconds = some q)) ∧
    (∀ a b : ℚ, jsNumLeB (some a) (some b) = true ↔ a ≤ b) ∧
    (processVideoWithAI [raw10a, raw5, raw10b]).map Subtitle.index = [2, 1, 3] := by
  refine ⟨List.sorted_insertionSort subLe _, List.perm_insertionSort subLe _, ?_, ?_, ?_⟩
  · intro q
    refine filter_insertionSort _ _ fun a b ha hb => ?_
    simp only [decide_eq_true_eq] at ha hb
    show jsNumLeB a.startSeconds b.startSeconds = true
    rw [ha, hb]
    simp [jsNumLeB]
  · intro a b
    simp [jsNumLeB]
  · have e5 : parseSRTTime (str "00:00:05,000") = some 5 := by
      rw [show str "00:00:05,000"
          = str "00" ++ ':' :: (str "00" ++ ':' :: (str "05" ++ ',' :: str "000")) from by decide,
        parseSRTTime_comma (by decide) (by decide) (by decide) (by decide) (by decide)
          (by decide) (by decide)]
      norm_num [show digitsToNat (str "00") = 0 from by decide,
        show digitsToNat (str "05") = 5 from by decide,
        show digitsToNat (str "000") = 0 from by decide]
    have e6 : parseSRTTime (str "00:00:06,000") = some 6 := by
      rw [show str "00:00:06,000"
          = str "00" ++ ':' :: (str "00" ++ ':' :: (str "06" ++ ',' :: str "000")) from by decide,
        parseSRTTime_comma (by decide) (by decide) (by decide) (by decide) (by decide)
          (by decide) (by decide)]
      norm_num [show digitsToNat (str "00") = 0 from by decide,
        show digitsToNat (str "06") = 6 from by decide,
        show digitsToNat (str "000") = 0 from by decide]
    have e10 : parseSRTTime (str "00:00:10,000") = some 10 := by
      rw [show str "00:00:10,000"
          = str "00" ++ ':' :: (str "00" ++ ':' :: (str "10" ++ ',' :: str "000")) from by decide,
        parseSRTTime_comma (by decide) (by decide) (by decide) (by decide) (by decide)
          (by decide) (by decide)]
      norm_num [show digitsToNat (str "00") = 0 from by decide,
        show digitsToNat (str "10") = 10 from by decide,
        show digitsToNat (str "000") = 0 from by decide]
    have e11 : parseSRTTime (str "00:00:11,000") = some 11 := by
      rw [show str "00:00:11,000"
          = str "00" ++ ':' :: (str "00" ++ ':' :: (str "11" ++ ',' :: str "000")) from by decide,
        parseSRTTime_comma (by decide) (by decide) (by decide) (by decide) (by decide)
          (by decide) (by decide)]
      norm_num [show digitsToNat (str "00") = 0 from by decide,
        show digitsToNat (str "11") = 11 from by decide,
        show digitsToNat (str "000") = 0 from by decide]
    have e12 : parseSRTTime (str "00:00:12,000") = some 12 := by
      rw [show str "00:00:12,000"
          = str "00" ++ ':' :: (str "00" ++ ':' :: (str "12" ++ ',' :: str "000")) from by decide,
        parseSRTTime_comma (by decide) (by decide) (by decide) (by decide) (by decide)
          (by decide) (by decide)]
      norm_num [show digitsToNat (str "00") = 0 from by decide,
        show digitsToNat (str "12") = 12 from by decide,
        show digitsToNat (str "000") = 0 from by decide]
    have h1 : ¬ ((10 : ℚ) ≤ 5) := by norm_num
    have h2 : (5 : ℚ) ≤ 10 := by norm_num
    have h3 : (10 : ℚ) ≤ 10 := le_refl 10
    simp [processVideoWithAI, rawToSubtitle, raw10a, raw5, raw10b, e5, e6, e10, e11, e12,
      List.insertionSort, List.orderedInsert, subLe, jsNumLeB, h1, h2, h3]

/-- **C7 (counterexample).** The claim says `parseTimestamp(formatSeconds(x))`
is within 0.001 of `x`, with `formatSeconds` truncating the sub-second
remainder into a 3-digit millisecond field; in fact `formatTime` emits only
`HH:MM:SS` — no comma, no millisecond field — so at `x = 0.5` the string is
`"00:00:00"` and `parseTimeToSeconds` on it is NaN (`none`): no value within
0.001 of 0.5 is produced. -/
theorem C7_roundtrip_counterexample :
    parseTimeToSeconds (formatTime (1 / 2)) = none ∧ formatTime (1 / 2) = str "00:00:00" := by
  constructor
  · exact parseTimeToSeconds_formatTime (1 / 2) (by norm_num)
  · rw [formatTime_eq (1 / 2) (by norm_num),
      show ⌊(1 / 2 : ℚ)⌋ = 0 from Int.floor_eq_iff.2 (by norm_num)]
    decide

/-- **C7 (amended).** `formatTime` emits only floored, zero-padded `HH:MM:SS`
with no millisecond field; for every `x` with `0 ≤ x < 360000`, the round trip
through the comma-splitting `parseTimeToSeconds` yields NaN (`none`), while
`parseSRTTime (formatTime x)` recovers `⌊x⌋` — within 1 second of `x`, not
within 0.001. -/
theorem C7_amended_roundtrip (x : ℚ) (h0 : 0 ≤ x) (_h1 : x < 360000) :
    parseSRTTime (formatTime x) = some ((⌊x⌋ : ℚ)) ∧
    parseTimeToSeconds (formatTime x) = none ∧
    x - 1 < ((⌊x⌋ : ℚ)) ∧ ((⌊x⌋ : ℚ)) ≤ x :=
  ⟨parseSRTTime_formatTime x h0, parseTimeToSeconds_formatTime x h0,
    Int.sub_one_lt_floor x, Int.floor_le x⟩

/-- Witness for C7 (amended) at `x = 7384.25`. -/
theorem C7_amended_roundtrip_witness :
    parseSRTTime (formatTime (7384 + 1 / 4)) = some ((⌊(7384 + 1 / 4 : ℚ)⌋ : ℚ)) ∧
    parseTimeToSeconds (formatTime (7384 + 1 / 4)) = none ∧
    (7384 + 1 / 4 : ℚ) - 1 < ((⌊(7384 + 1 / 4 : ℚ)⌋ : ℚ)) ∧
    ((⌊(7384 + 1 / 4 : ℚ)⌋ : ℚ)) ≤ 7384 + 1 / 4 :=
  C7_amended_roundtrip (7384 + 1 / 4) (by norm_num) (by norm_num)

/-- **C8 (counterexample).** The claim quantifies over every subtitle list; for
a subtitle whose `originalText` is empty, the bilingual block contains a blank
text line, the blank-line block splitting of `deserialize` misaligns, and the
`translatedText` is not reconstructed. -/
theorem C8_roundtrip_counterexample :
    (deserialize (generateSRT [c8bad] SRTMode.bilingual)).map textFields
      ≠ [c8bad].map textFields := by decide

/-- **C8 (amended).** For subtitle lists whose time strings contain no newline
and no space and whose two text fields are nonempty and newline-free,
`deserialize (generateSRT subs bilingual)` reconstructs `startTime`,
`endTime`, `originalText` and `translatedText` exactly for every entry (the
stored `index` values are not required to round-trip). -/
theorem C8_amended_roundtrip (subs : List Subtitle)
    (h : ∀ sub ∈ subs,
      ('\n' ∉ sub.startTime ∧ ' ' ∉ sub.startTime) ∧
      ('\n' ∉ sub.endTime ∧ ' ' ∉ sub.endTime) ∧
      (sub.originalText ≠ [] ∧ '\n' ∉ sub.originalText) ∧
      (sub.translatedText ≠ [] ∧ '\n' ∉ sub.translatedText)) :
    (deserialize (generateSRT subs SRTMode.bilingual)).map textFields
      = subs.map textFields :=
  deserialize_generateSRT_bilingual subs h

/-- Witness for C8 (amended) on a one-entry list. -/
theorem C8_amended_roundtrip_witness :
    (deserialize (generateSRT [subI5] SRTMode.bilingual)).map textFields
      = [subI5].map textFields :=
  C8_amended_roundtrip [subI5] (by decide)

/-- **C9 (counterexample).** The claim says the panel dimensions are fractions
of the frame size with no fixed pixel constants; in fact `padding = 20` is a
fixed pixel constant, so doubling the resolution does not double the panel
height (47.5 px at 100 px height versus 55 px at 200 px height, even with a
resolution-proportional text measure). -/
theorem C9_fixed_padding_counterexample :
    (composeOverlay measureLinear 200 200 sub24).boxHeight * 100
      ≠ (composeOverlay measureLinear 100 100 sub24).boxHeight * 200 := by
  norm_num [composeOverlay, measureLinear]

/-- **C9 (amended).** In `synthesizeVideo`'s overlay layout the font sizes
(4% and 3.5% of frame height) and the bottom offset (8% of frame height) are
height-fractions, the panel is horizontally centered and anchored at the
bottom offset, and the panel is sized to the larger measured line width plus
a fixed 20-pixel padding on each side (a pixel constant, not a ratio). -/
theorem C9_amended_layout (measure : ℚ → JSStr → ℚ) (W H : ℚ) (sub : Subtitle) :
    (composeOverlay measure W H sub).fontSizeEn = H * (4 / 100) ∧
    (composeOverlay measure W H sub).fontSizeZh = H * (35 / 1000) ∧
    (composeOverlay measure W H sub).bottomOffset = H * (8 / 100) ∧
    2 * (composeOverlay measure W H sub).boxX + (composeOverlay measure W H sub).boxWidth = W ∧
    (composeOverlay measure W H sub).boxY + (composeOverlay measure W H sub).boxHeight
      + (composeOverlay measure W H sub).bottomOffset = H ∧
    (composeOverlay measure W H sub).boxWidth
      = max (measure ((composeOverlay measure W H sub).fontSizeEn) sub.originalText)
          (measure ((composeOverlay measure W H sub).fontSizeZh) sub.translatedText) + 2 * 20 ∧
    (composeOverlay measure W H sub).boxHeight
      = (composeOverlay measure W H sub).fontSizeEn
        + (composeOverlay measure W H sub).fontSizeZh + 2 * 20 := by
  refine ⟨?_, ?_, ?_, ?_, ?_, ?_, ?_⟩ <;> simp only [composeOverlay] <;> ring_nf

/-- **C10.** On every canonical `HH:MM:SS,mmm` timestamp with all-digit
components (3-digit milliseconds), the two parsers `parseTimeToSeconds`
(srt.ts) and `parseSRTTime` (gemini.ts) return the same value — difference 0,
hence at most 0.001 — and they diverge on the non-canonical dot-separated
form, where only `parseSRTTime` produces a value. -/
theorem C10_parsers_agree_canonical (H M S MS : JSStr)
    (hH : ∀ c ∈ H, isDigitC c = true) (hHne : H ≠ [])
    (hM : ∀ c ∈ M, isDigitC c = true) (hMne : M ≠ [])
    (hS : ∀ c ∈ S, isDigitC c = true) (hSne : S ≠ [])
    (hMS : ∀ c ∈ MS, isDigitC c = true) (hMSne : MS ≠ []) (hMS3 : MS.length = 3) :
    parseTimeToSeconds (H ++ ':' :: (M ++ ':' :: (S ++ ',' :: MS)))
      = parseSRTTime (H ++ ':' :: (M ++ ':' :: (S ++ ',' :: MS))) ∧
    parseTimeToSeconds (H ++ ':' :: (M ++ ':' :: (S ++ ',' :: MS)))
      = some ((digitsToNat H : ℚ) * 3600 + (digitsToNat M : ℚ) * 60 + (digitsToNat S : ℚ)
          + (digitsToNat MS : ℚ) / 1000) ∧
    parseTimeToSeconds (str "00:00:01.500") = none ∧
    parseSRTTime (str "00:00:01.500") = some (3 / 2) := by
  have hA := parseTimeToSeconds_canonical hH hHne hM hMne hS hSne hMS hMSne
  have hB := parseSRTTime_comma hH hHne hM hMne hS hSne hMS
  refine ⟨?_, hA, by decide, ?_⟩
  · rw [hA, hB, hMS3]
    simp only [Option.some.injEq]
    norm_num
    ring
  · rw [show str "00:00:01.500"
        = str "00" ++ ':' :: (str "00" ++ ':' :: (str "01" ++ '.' :: str "500")) from by decide,
      parseSRTTime_dot (by decide) (by decide) (by decide) (by decide) (by decide)
        (by decide) (by decide)]
    norm_num [show digitsToNat (str "00") = 0 from by decide,
      show digitsToNat (str "01") = 1 from by decide,
      show digitsToNat (str "500") = 500 from by decide,
      show (str "500").length = 3 from by decide]

/-- Witness for C10 at `01:02:03,456`. -/
theorem C10_parsers_agree_canonical_witness :
    parseTimeToSeconds (str "01" ++ ':' :: (str "02" ++ ':' :: (str "03" ++ ',' :: str "456")))
      = parseSRTTime (str "01" ++ ':' :: (str "02" ++ ':' :: (str "03" ++ ',' :: str "456"))) :=
  (C10_parsers_agree_canonical (str "01") (str "02") (str "03") (str "456") (by decide)
    (by decide) (by decide) (by decide) (by decide) (by decide) (by decide) (by decide)
    (by decide)).1
